import Mathlib

/-!
Verification development for the phiera hierarchical-configuration
resolution engine (`phiera/phiera.py`, `phiera/util.py`, `phiera/backends.py`).

The Python code is shallowly embedded:

* Python values (the things YAML/JSON documents, contexts and merge
  accumulators hold) are the inductive type `Value`; `Value.null` is
  Python `None`; `Value.dict` is an insertion-ordered mapping
  (`LookupDict` / `OrderedDict`); `Value.pyset` stands for a Python
  `set`, represented as an insertion-ordered duplicate-free list (the
  iteration order of a CPython set is not observable in any property
  proved here).
* Python exceptions become the error type `Err`, raised through
  `Except Err`.  `Hiera.get` catches exactly `KeyError`
  (`Err.keyError`); `InterpolationError` lives in `phiera/exceptions.py`
  which is not part of the sources, so it is modelled from the spec
  (Section 7) as the distinct constructor `Err.interpolationError`.
* The two module-level regular expressions `function` and `interpolate`
  are embedded as explicit character-level matchers (they are concrete
  patterns, so their matching behaviour is implemented directly);
  `re.findall` / `re.sub` become `funcFindall` / `interpFindall` /
  `funcSub1` / `interpSub1` / `funcSubAll`.  The replacement string is
  substituted literally, whereas Python's `re.sub` treats a backslash in
  a string replacement as a template escape (`\n`, `\1`, `\g<0>`;
  unknown ASCII-letter escapes raise `re.error`).  That processing is
  not modelled: every theorem below whose conclusion asserts a literal
  substitution therefore assumes the replacement value contains no
  backslash (`bsC`), and the alias whole-string check only ever uses
  the empty replacement.
* The unbounded recursion `get_key -> resolve -> resolve_function ->
  get_key` (the source has no cycle guard) is driven by an explicit
  `fuel : Nat`; exhausting it yields `Err.recursionError`, the stand-in
  for Python's `RecursionError`.
* Datadir / hierarchy path templates are modelled post-parse as lists of
  literal/variable segments (`Tmpl`): the source rewrites `%{var}` to
  `{var}` at load time and renders with `str.format`, whose placeholder
  lookup and stringification are `render` below.
* Mutable state is made explicit: the document cache is threaded through
  `load_file` and path enumeration; the context-dictionary aliasing of
  `Hiera.__init__` / `Hiera.scoped` is modelled by a store of
  dictionaries indexed by references (`storeGet` / `storeSet`), with
  index 0 and 1 playing the role of the two shared mutable default
  arguments `context={}`.
-/

/-- Python runtime values as they occur in phiera documents and contexts. -/
inductive Value where
  | null
  | bool (b : Bool)
  | int (n : Int)
  | str (s : String)
  | list (xs : List Value)
  | dict (xs : List (String × Value))
  | pyset (xs : List Value)

/-- Python exceptions that phiera code can raise. -/
inductive Err where
  | keyError (k : Option String)
  | indexError (msg : String)
  | typeError (msg : String)
  | valueError (msg : String)
  | attributeError (msg : String)
  | interpolationError (msg : String)
  | otherError (msg : String)
  | recursionError
deriving DecidableEq

/-- Coarse classification of an `Err`, used to state which KIND of
exception a computation raises without fixing the message text. -/
inductive ErrKind where
  | key
  | index
  | type
  | value
  | attribute
  | interpolation
  | other
  | recursion
deriving DecidableEq

def Err.kind : Err → ErrKind
  | .keyError _ => .key
  | .indexError _ => .index
  | .typeError _ => .type
  | .valueError _ => .value
  | .attributeError _ => .attribute
  | .interpolationError _ => .interpolation
  | .otherError _ => .other
  | .recursionError => .recursion

/-- Kind of the error of a failed computation (`none` when it succeeded). -/
def errKind {α : Type} : Except Err α → Option ErrKind
  | .error e => some e.kind
  | .ok _ => none

/-- Python truthiness (`bool(v)`): `None`, `False`, `0`, `""` and empty
containers are falsy. -/
def truthy : Value → Bool
  | .null => false
  | .bool b => b
  | .int n => n != 0
  | .str s => s != ""
  | .list xs => !xs.isEmpty
  | .dict xs => !xs.isEmpty
  | .pyset xs => !xs.isEmpty

mutual
/-- Python `==` on values.  Structural, except that Python compares
`bool` and `int` numerically (`True == 1`). -/
def pyEq : Value → Value → Bool
  | .null, .null => true
  | .bool a, .bool b => a == b
  | .bool a, .int b => (if a then (1 : Int) else 0) == b
  | .int a, .bool b => a == (if b then (1 : Int) else 0)
  | .int a, .int b => a == b
  | .str a, .str b => a == b
  | .list a, .list b => pyEqL a b
  | .dict a, .dict b => pyEqD a b
  | .pyset a, .pyset b => pyEqL a b
  | _, _ => false

def pyEqL : List Value → List Value → Bool
  | [], [] => true
  | a :: as, b :: bs => pyEq a b && pyEqL as bs
  | _, _ => false

def pyEqD : List (String × Value) → List (String × Value) → Bool
  | [], [] => true
  | (k1, a) :: as, (k2, b) :: bs => k1 == k2 && pyEq a b && pyEqD as bs
  | _, _ => false
end

/-- Membership by Python equality (`x in xs` for a list `xs`). -/
def pyMem (xs : List Value) (v : Value) : Bool :=
  xs.any (fun x => pyEq x v)

/-- Single-quote character (39). -/
def sqC : Char := Char.ofNat 39
/-- Double-quote character (34). -/
def dqC : Char := Char.ofNat 34
/-- Left brace character (123). -/
def lbC : Char := Char.ofNat 123
/-- Right brace character (125). -/
def rbC : Char := Char.ofNat 125
/-- Backslash character (92). -/
def bsC : Char := Char.ofNat 92

def sqS : String := String.mk [sqC]
def lbS : String := String.mk [lbC]
def rbS : String := String.mk [rbC]

mutual
/-- Python `repr(v)` (approximate: string escaping inside reprs is not
modelled; only used for `str.format` rendering and exception messages). -/
def pyRepr : Value → String
  | .null => "None"
  | .bool b => if b then "True" else "False"
  | .int n => toString n
  | .str s => sqS ++ s ++ sqS
  | .list xs => "[" ++ pyReprL xs ++ "]"
  | .dict es => lbS ++ pyReprD es ++ rbS
  | .pyset xs => if xs.isEmpty then "set()" else lbS ++ pyReprL xs ++ rbS

def pyReprL : List Value → String
  | [] => ""
  | [v] => pyRepr v
  | v :: rest => pyRepr v ++ ", " ++ pyReprL rest

def pyReprD : List (String × Value) → String
  | [] => ""
  | [(k, v)] => sqS ++ k ++ sqS ++ ": " ++ pyRepr v
  | (k, v) :: rest => sqS ++ k ++ sqS ++ ": " ++ pyRepr v ++ ", " ++ pyReprD rest
end

/-- Python `str(v)`. -/
def pyStr : Value → String
  | .str s => s
  | v => pyRepr v

/-- Python dictionaries with string keys, as insertion-ordered
association lists (every operation below preserves key uniqueness the
way `dict` does). -/
def PyDict : Type := List (String × Value)

/-- Lookup (`d.get(k)` / `d[k]` presence side). -/
def pyGet (d : PyDict) (k : String) : Option Value :=
  match d with
  | [] => none
  | (k1, v) :: rest => if k1 = k then some v else pyGet rest k

/-- Single-key assignment `d[k] = v`: overwrite in place keeping the key's
position, else append at the end. -/
def upsert (d : PyDict) (k : String) (v : Value) : PyDict :=
  match d with
  | [] => [(k, v)]
  | (k1, v1) :: rest => if k1 = k then (k, v) :: rest else (k1, v1) :: upsert rest k v

/-- Python `dst.update(src)`: assign every pair of `src` into `dst`, in
order. -/
def pyUpdate (dst src : PyDict) : PyDict :=
  match src with
  | [] => dst
  | (k, v) :: rest => pyUpdate (upsert dst k v) rest

/-- Value of the last binding of `k` in an association list (what a
sequence of `dict` assignments leaves behind). -/
def lastGet (xs : PyDict) (k : String) : Option Value :=
  match xs with
  | [] => none
  | (k1, v) :: rest =>
    match lastGet rest k with
    | some w => some w
    | none => if k1 = k then some v else none

/-- Context filtering in `Hiera.get`:
`new_context = {k: v for k, v in new_context.items() if v}`. -/
def filterCtx (d : PyDict) : PyDict :=
  d.filter (fun kv => truthy kv.2)

/-- Context assembly in `Hiera.get`: instance context, then the `context`
argument, then keyword overrides, later sources winning. -/
def assembleCtx (ictx cctx kw : PyDict) : PyDict :=
  pyUpdate (pyUpdate (pyUpdate [] ictx) cctx) kw

/-- Python `int(s)` on a string: optional surrounding whitespace,
optional sign, at least one digit (underscore grouping not modelled). -/
def parseDigits (cs : List Char) : Option Nat :=
  match cs with
  | [] => none
  | _ =>
    if cs.all Char.isDigit then
      some (cs.foldl (fun acc c => acc * 10 + (c.toNat - 48)) 0)
    else none

def pyParseInt (s : String) : Option Int :=
  let cs := ((s.data.dropWhile (· = ' ')).reverse.dropWhile (· = ' ')).reverse
  match cs with
  | '-' :: ds => (parseDigits ds).map (fun n => -(n : Int))
  | '+' :: ds => (parseDigits ds).map (fun n => (n : Int))
  | ds => (parseDigits ds).map (fun n => (n : Int))

/-- Python `"a.b".split('.')` (note `"".split('.') == [""]`). -/
def splitDotGo (cs : List Char) (acc : List Char) : List String :=
  match cs with
  | [] => [String.mk acc.reverse]
  | c :: rest =>
    if c = '.' then String.mk acc.reverse :: splitDotGo rest []
    else splitDotGo rest (c :: acc)

def pySplitDot (s : String) : List String :=
  splitDotGo s.data []

/-- One step of `LookupDict.lookup`'s reduce:
`obj[int(seg) if type(obj) is list else seg]`, with the exceptions the
subscript raises in Python (ValueError from `int`, IndexError from list
indexing, KeyError from dict indexing, TypeError everywhere else). -/
def lookupStep (obj : Value) (seg : String) : Except Err Value :=
  match obj with
  | .list xs =>
    match pyParseInt seg with
    | none => .error (.valueError seg)
    | some i =>
      let j : Int := if i < 0 then i + xs.length else i
      if j < 0 then .error (.indexError seg)
      else
        match xs.get? j.toNat with
        | some v => .ok v
        | none => .error (.indexError seg)
  | .dict es =>
    match pyGet es seg with
    | some v => .ok v
    | none => .error (.keyError (some seg))
  | .str _ => .error (.typeError "string indices must be integers")
  | _ => .error (.typeError "object is not subscriptable")

def lookupSegs (obj : Value) (segs : List String) : Except Err Value :=
  match segs with
  | [] => .ok obj
  | seg :: rest =>
    match lookupStep obj seg with
    | .ok v => lookupSegs v rest
    | .error e => .error e

/-- `LookupDict.lookup(key)`:
`reduce(lambda obj, key: obj[int(key) if type(obj) is list else key], key.split('.'), self)`. -/
def lookup (d : Value) (key : String) : Except Err Value :=
  lookupSegs d (pySplitDot key)

/-- Strip a leading `::` (the `(?:::|)` group of both regexes; the
alternation is greedy and stripping can never turn a match into a
non-match, so it is unconditional). -/
def stripCC (cs : List Char) : List Char :=
  match cs with
  | c1 :: c2 :: rest => if c1 = ':' ∧ c2 = ':' then rest else cs
  | _ => cs

/-- Try to match `interpolate = %\x7b(?:::|)([^\x7d]*)\x7d` at the head of
`cs`; on success return the capture and the remainder after the match. -/
def matchInterpAt (cs : List Char) : Option (List Char × List Char) :=
  match cs with
  | c1 :: c2 :: rest =>
    if c1 = '%' ∧ c2 = lbC then
      let r1 := stripCC rest
      let nm := r1.takeWhile (fun c => c ≠ rbC)
      match r1.drop nm.length with
      | c3 :: r2 => if c3 = rbC then some (nm, r2) else none
      | [] => none
    else none
  | _ => none

/-- Names accepted by the `function` regex alternation, in its order. -/
def fnNames : List String := ["scope", "hiera", "lookup", "literal", "alias"]

def matchFnName (cs : List Char) : Option (String × List Char) :=
  match fnNames.find? (fun n => n.data.isPrefixOf cs) with
  | some n => some (n, cs.drop n.length)
  | none => none

/-- Try to match
`function = %\x7b(scope|hiera|lookup|literal|alias)\(['"](?:::|)([^"']*)["']\)\x7d`
at the head of `cs` (note the regex does not force the closing quote to
equal the opening one). -/
def matchFuncAt (cs : List Char) : Option (String × String × List Char) :=
  match cs with
  | c1 :: c2 :: rest =>
    if c1 = '%' ∧ c2 = lbC then
      match matchFnName rest with
      | some (fn, r1) =>
        match r1 with
        | p :: q :: r2 =>
          if p = '(' ∧ (q = sqC ∨ q = dqC) then
            let r3 := stripCC r2
            let arg := r3.takeWhile (fun c => c ≠ sqC ∧ c ≠ dqC)
            match r3.drop arg.length with
            | q2 :: c3 :: c4 :: r4 =>
              if (q2 = sqC ∨ q2 = dqC) ∧ c3 = ')' ∧ c4 = rbC then
                some (fn, String.mk arg, r4)
              else none
            | _ => none
          else none
        | _ => none
      | none => none
    else none
  | _ => none

/-- Fuelled scan for `interpolate.findall`: at each position try a match;
on success continue after the match, otherwise advance one character.
Fuel bounds the number of steps; each step consumes at least one
character, so `cs.length + 1` fuel is always enough (see
`interpFindallF_irrel`). -/
def interpFindallF : Nat → List Char → List (List Char)
  | 0, _ => []
  | fuel + 1, cs =>
    match matchInterpAt cs with
    | some (nm, rest) => nm :: interpFindallF fuel rest
    | none =>
      match cs with
      | [] => []
      | _ :: t => interpFindallF fuel t

/-- `interpolate.findall(s)` (captures only, in match order). -/
def interpFindall (cs : List Char) : List (List Char) :=
  interpFindallF (cs.length + 1) cs

def funcFindallF : Nat → List Char → List (String × String)
  | 0, _ => []
  | fuel + 1, cs =>
    match matchFuncAt cs with
    | some (fn, arg, rest) => (fn, arg) :: funcFindallF fuel rest
    | none =>
      match cs with
      | [] => []
      | _ :: t => funcFindallF fuel t

/-- `function.findall(s)`: list of (function name, argument) pairs. -/
def funcFindall (cs : List Char) : List (String × String) :=
  funcFindallF (cs.length + 1) cs

/-- `interpolate.sub(repl, s, 1)`: replace the leftmost match.  The
replacement text is inserted literally; `re.sub`'s replacement-template
escape processing for backslash-bearing replacements is not modelled
(see the header), so facts proved through this definition about a
non-empty replacement carry a no-backslash hypothesis. -/
def interpSub1 (repl : List Char) (cs : List Char) : List Char :=
  match matchInterpAt cs with
  | some (_, rest) => repl ++ rest
  | none =>
    match cs with
    | [] => []
    | c :: t => c :: interpSub1 repl t

/-- `function.sub(repl, s, 1)`, with the same literal-replacement
simplification (and caveat) as `interpSub1`. -/
def funcSub1 (repl : List Char) (cs : List Char) : List Char :=
  match matchFuncAt cs with
  | some (_, _, rest) => repl ++ rest
  | none =>
    match cs with
    | [] => []
    | c :: t => c :: funcSub1 repl t

def funcSubAllF (repl : List Char) : Nat → List Char → List Char
  | 0, _ => []
  | fuel + 1, cs =>
    match matchFuncAt cs with
    | some (_, _, rest) => repl ++ funcSubAllF repl fuel rest
    | none =>
      match cs with
      | [] => []
      | c :: t => c :: funcSubAllF repl fuel t

/-- `function.sub(repl, s)` (all matches). -/
def funcSubAll (repl : List Char) (cs : List Char) : List Char :=
  funcSubAllF repl (cs.length + 1) cs

/-- Lookup in the entry list of a `Value.dict` (`k in d` / `d[k]`). -/
def assocFind (es : List (String × Value)) (k : String) : Option Value :=
  match es with
  | [] => none
  | (k1, v) :: rest => if k1 = k then some v else assocFind rest k

/-- `d[k] = v` on a `Value.dict` entry list. -/
def assocSet (es : List (String × Value)) (k : String) (v : Value) : List (String × Value) :=
  match es with
  | [] => [(k, v)]
  | (k1, v1) :: rest => if k1 = k then (k, v) :: rest else (k1, v1) :: assocSet rest k v

/-- Merge strategies a caller can request (`Merge(typ, deep)`: the `typ`
argument of the Python constructor is one of the classes `list`, `set`,
`dict`, `str`; any other class fails at merge time). -/
inductive MTyp where
  | list
  | pyset
  | dict
  | str
deriving DecidableEq

/-- Merge parameters travelling down recursive lookups: the strategy and
the deep flag (`Merge.typ`, `Merge.deep`). -/
def MParam : Type := MTyp × Bool

/-- A `Merge` accumulator object. -/
structure MergeAcc where
  typ : MTyp
  deep : Bool
  value : Value

/-- `Merge.__init__`: `self.value = LookupDict() if typ == dict else typ()`. -/
def mkAcc (mp : MParam) : MergeAcc :=
  { typ := mp.1
    deep := mp.2
    value :=
      match mp.1 with
      | .list => .list []
      | .pyset => .pyset []
      | .dict => .dict []
      | .str => .str "" }

/-- Python `list(v)` / `set(v)` iteration: lists and sets yield their
elements, strings their characters, dicts their keys; everything else is
not iterable (TypeError). -/
def pyIterList : Value → Option (List Value)
  | .list xs => some xs
  | .pyset xs => some xs
  | .str s => some (s.data.map (fun c => .str (String.mk [c])))
  | .dict es => some (es.map (fun kv => .str kv.1))
  | _ => none

/-- Add an element to the set representation unless an equal one is
already present. -/
def pySetAdd (xs : List Value) (v : Value) : List Value :=
  if pyMem xs v then xs else xs ++ [v]

/-- Union of the set representation with an iterable's elements. -/
def pySetUnion (xs vs : List Value) : List Value :=
  vs.foldl pySetAdd xs

mutual
/-- `Merge.deep_merge(a, b)`: recursively merges dicts; `a` is always a
dict at both call sites (`self.value` or a value checked with
`isinstance(result[k], dict)`), so it is passed as an entry list.
`deepcopy` is the identity in this pure embedding. -/
def deep_merge (a : List (String × Value)) (b : Value) : Value :=
  match b with
  | .dict bs => .dict (dmEntries a bs)
  | _ => b

/-- The `for k, v in b.items()` loop of `deep_merge`, threading `result`. -/
def dmEntries (result : List (String × Value)) (bs : List (String × Value)) : List (String × Value) :=
  match bs with
  | [] => result
  | (k, v) :: rest =>
    let result2 :=
      match assocFind result k with
      | some (.dict as) => assocSet result k (deep_merge as v)
      | some (.list xs) =>
        match v with
        | .list vs => assocSet result k (.list (xs ++ vs.filter (fun x => !pyMem xs x)))
        | _ => assocSet result k (.list (xs ++ [v]))
      | _ => assocSet result k v
    dmEntries result2 rest
end

/-- `for k, v in value.items(): if k not in self.value: self.value[k] = v`
(the shallow dict branch of `merge_value`). -/
def shallowDictMerge (es vs : List (String × Value)) : List (String × Value) :=
  match vs with
  | [] => es
  | (k, v) :: rest =>
    shallowDictMerge (if (assocFind es k).isSome then es else es ++ [(k, v)]) rest

/-- `Merge.merge_value(value)`: dispatches on the dynamic type of the
CURRENT accumulator value (`isinstance(self.value, ...)`). -/
def merge_value (acc : MergeAcc) (value : Value) : Except Err MergeAcc :=
  match acc.value with
  | .list xs =>
    match pyIterList value with
    | some vs => .ok { acc with value := .list (xs ++ vs) }
    | none => .error (.typeError "object is not iterable")
  | .pyset xs =>
    match pyIterList value with
    | some vs => .ok { acc with value := .pyset (pySetUnion xs vs) }
    | none => .error (.typeError "object is not iterable")
  | .dict es =>
    if acc.deep then .ok { acc with value := deep_merge es value }
    else
      match value with
      | .dict vs => .ok { acc with value := .dict (shallowDictMerge es vs) }
      | _ => .error (.attributeError "items")
  | .str _ => .ok { acc with value := value }
  | _ => .error (.typeError "Cannot handle merge_value")

/-- Segment of a datadir / hierarchy path template.  Templates are
modelled post-parse: the source rewrites `%\x7bvar\x7d` to `\x7bvar\x7d`
with `rformat.sub` at load time and later renders with
`str.format(**context)`, which substitutes `str(value)` for each
variable and raises `KeyError` on a missing one. -/
inductive TSeg where
  | lit (s : String)
  | var (v : String)

def Tmpl : Type := List TSeg

/-- Variables referenced by a template. -/
def tmplVars (t : Tmpl) : List String :=
  match t with
  | [] => []
  | .lit _ :: rest => tmplVars rest
  | .var v :: rest => v :: tmplVars rest

/-- `template.format(**ctx)`: `none` models the `KeyError` raised for a
placeholder absent from `ctx`. -/
def render (t : Tmpl) (ctx : PyDict) : Option String :=
  match t with
  | [] => some ""
  | .lit s :: rest => (render rest ctx).map (fun r => s ++ r)
  | .var v :: rest =>
    match pyGet ctx v with
    | some w => (render rest ctx).map (fun r => pyStr w ++ r)
    | none => none

/-- `os.path.join(a, b)` for the cases arising here. -/
def pjoin (a b : String) : String :=
  if b.data.head? = some '/' then b
  else if a = "" then b
  else if a.data.getLast? = some '/' then a ++ b
  else a ++ "/" ++ b

/-- The document cache `self.cache` (path -> parsed document; a document
may be `Value.null` when the backend parsed an empty file). -/
def Cache : Type := List (String × Value)

def cacheGet (c : Cache) (p : String) : Option Value :=
  match c with
  | [] => none
  | (p1, d) :: rest => if p1 = p then some d else cacheGet rest p

def cacheSet (c : Cache) (p : String) (d : Value) : Cache :=
  match c with
  | [] => [(p, d)]
  | (p1, d1) :: rest => if p1 = p then (p, d) :: rest else (p1, d1) :: cacheSet rest p d

/-- A backend as the engine uses it: its `NAME` (also the file
extension), its datadir template, and `backend.load(backend.read_file(path))`
composed into one fallible document loader (`.error` is the message of
whatever exception reading or parsing raised). -/
structure Backend where
  name : String
  datadir : Tmpl
  loadDoc : String → Except String Value

/-- The engine's static configuration after `Hiera.load`: `base_path`,
the backends in declared order (`self.backends.values()`), and the
hierarchy templates in declared order. -/
structure HieraConfig where
  basePath : String
  backends : List Backend
  hierarchy : List Tmpl

/-- Filesystem oracle: `os.path.isdir`, `os.path.exists`, and the files
produced by `os.walk` in traversal order. -/
structure Filesystem where
  isDir : String → Bool
  pathExists : String → Bool
  walk : String → List String

/-- `Hiera.load_file(path, backend, ignore_cache)`: return the cached
path, or invoke the backend and cache the parsed document; any backend
failure is wrapped with the path and re-raised, and the cache is left
unchanged (the assignment's right-hand side raised first).  The result
is the raised-or-returned outcome paired with the cache afterwards. -/
def load_file (cache : Cache) (loadDoc : String → Except String Value)
    (ignore_cache : Bool) (path : String) : Except Err String × Cache :=
  if (cacheGet cache path).isNone || ignore_cache then
    match loadDoc path with
    | .ok doc => (.ok path, cacheSet cache path doc)
    | .error e => (.error (.otherError ("Failed to load file " ++ path ++ ": `" ++ e ++ "`")), cache)
  else (.ok path, cache)

/-- `Hiera.load_directory(path, backend)` as consumed by `Hiera.get`
(`backend` is always provided there, so the extension-inference branch
is never taken): load every walked file, collecting its path. -/
def loadDirFold (b : Backend) (files : List String) (st : Cache × List String) :
    Except Err (Cache × List String) :=
  match files with
  | [] => .ok st
  | f :: rest =>
    match load_file st.1 b.loadDoc false f with
    | (.ok p, cache2) => loadDirFold b rest (cache2, st.2 ++ [p])
    | (.error e, _) => .error e

/-- One (backend, hierarchy level) step of the path-resolution loop in
`Hiera.get`: render both templates (a `KeyError` from either skips the
candidate), then load a directory or an existing
`path + '.' + backend.NAME` file. -/
def pairStep (cfg : HieraConfig) (fs : Filesystem) (b : Backend) (t : Tmpl)
    (ctx : PyDict) (st : Cache × List String) : Except Err (Cache × List String) :=
  match render b.datadir ctx, render t ctx with
  | some dd, some pp =>
    let path := pjoin (pjoin cfg.basePath dd) pp
    if fs.isDir path then loadDirFold b (fs.walk path) st
    else if fs.pathExists (path ++ "." ++ b.name) then
      match load_file st.1 b.loadDoc false (path ++ "." ++ b.name) with
      | (.ok p, cache2) => .ok (cache2, st.2 ++ [p])
      | (.error e, _) => .error e
    else .ok st
  | _, _ => .ok st

/-- Inner loop of the path resolution: all hierarchy levels for one
backend, in declared order. -/
def enumLevels (cfg : HieraConfig) (fs : Filesystem) (b : Backend) (ctx : PyDict) :
    List Tmpl → Cache × List String → Except Err (Cache × List String)
  | [], st => .ok st
  | t :: ts, st =>
    match pairStep cfg fs b t ctx st with
    | .ok st2 => enumLevels cfg fs b ctx ts st2
    | .error e => .error e

/-- Outer loop: backends in declared order. -/
def enumBackends (cfg : HieraConfig) (fs : Filesystem) (ctx : PyDict) :
    List Backend → Cache × List String → Except Err (Cache × List String)
  | [], st => .ok st
  | b :: bs, st =>
    match enumLevels cfg fs b ctx cfg.hierarchy st with
    | .ok st2 => enumBackends cfg fs ctx bs st2
    | .error e => .error e

/-- The full candidate-path resolution of `Hiera.get`: ordered candidate
paths plus the updated document cache. -/
def enumPaths (cfg : HieraConfig) (fs : Filesystem) (ctx : PyDict) (cache0 : Cache) :
    Except Err (Cache × List String) :=
  enumBackends cfg fs ctx cfg.backends (cache0, [])

/-- Specification-side enumeration over an explicit (backend, level) pair
list, used to state the backend-major/hierarchy-minor ordering. -/
def enumPairs (cfg : HieraConfig) (fs : Filesystem) (ctx : PyDict) :
    List (Backend × Tmpl) → Cache × List String → Except Err (Cache × List String)
  | [], st => .ok st
  | (b, t) :: ps, st =>
    match pairStep cfg fs b t ctx st with
    | .ok st2 => enumPairs cfg fs ctx ps st2
    | .error e => .error e

/-- `Hiera.can_resolve(s)` for a string (non-strings are handled at the
`resolve` call site). -/
def can_resolve (s : String) : Bool :=
  !(funcFindall s.data).isEmpty || !(interpFindall s.data).isEmpty

/-- The `for call, arg in calls` loop of `Hiera.resolve_function`:
`cur` is the mutating `s` (which `scope` can turn into a non-string,
after which a further `function.sub` raises TypeError, exactly as
`re.sub` does on a non-string).  `gk` is the recursive
`self.get_key(arg, paths, context, merge)` re-entry. -/
def resolve_calls (gk : String → Except Err Value) (ctx : PyDict) :
    List (String × String) → Value → Except Err Value
  | [], cur => .ok cur
  | (call, arg) :: rest, cur =>
    let replaceE : Except Err Value :=
      if call = "hiera" ∨ call = "lookup" then gk arg
      else if call = "scope" then
        .ok ((pyGet ctx arg).getD .null)
      else if call = "literal" then .ok (.str arg)
      else .error (.otherError ("Invalid alias function call: `" ++ pyStr cur ++ "`"))
    match replaceE with
    | .error e => .error e
    | .ok replace =>
      if !truthy replace then
        .error (.otherError ("Could not resolve value for function call: `" ++ pyStr cur ++ "`"))
      else
        match replace with
        | .str rep =>
          match cur with
          | .str cs => resolve_calls gk ctx rest (.str (String.mk (funcSub1 rep.data cs.data)))
          | _ => .error (.typeError "expected string or bytes-like object")
        | _ =>
          if call = "scope" then resolve_calls gk ctx rest replace
          else .error (.otherError ("Resolved value is not a string for function call: `" ++ pyStr cur ++ "`"))

/-- `Hiera.resolve_function(s, paths, context, merge)`: the whole-string
single `alias(...)` case returns the aliased key's resolved value with
its type preserved (a failed alias lookup becomes `InterpolationError`);
otherwise every function call is substituted left to right. -/
def resolve_function (gk : String → Except Err Value) (ctx : PyDict) (s : String) :
    Except Err Value :=
  let calls := funcFindall s.data
  match calls with
  | [(fn, arg)] =>
    if fn = "alias" then
      if (funcSubAll [] s.data).isEmpty then
        match gk arg with
        | .error (.keyError _) =>
          .error (.interpolationError ("Alias lookup failed: key " ++ sqS ++ arg ++ sqS ++ " does not exist"))
        | r => r
      else .error (.otherError ("Alias can not be used for string interpolation: `" ++ s ++ "`"))
    else resolve_calls gk ctx calls (.str s)
  | _ => resolve_calls gk ctx calls (.str s)

/-- The `for i in interps` loop of `Hiera.resolve_interpolates`:
`(context.get(i) or '')` substitutes the value when truthy and the empty
string otherwise, but `re.sub` raises TypeError when the truthy value is
not a string. -/
def interpLoop (ctx : PyDict) : List (List Char) → List Char → Except Err (List Char)
  | [], cs => .ok cs
  | i :: rest, cs =>
    match pyGet ctx (String.mk i) with
    | some w =>
      if truthy w then
        match w with
        | .str t => interpLoop ctx rest (interpSub1 t.data cs)
        | _ => .error (.typeError "expected string or bytes-like object")
      else interpLoop ctx rest (interpSub1 [] cs)
    | none => interpLoop ctx rest (interpSub1 [] cs)

/-- `Hiera.resolve_interpolates(s, context)`. -/
def resolve_interpolates (s : String) (ctx : PyDict) : Except Err String :=
  match interpLoop ctx (interpFindall s.data) s.data with
  | .ok cs => .ok (String.mk cs)
  | .error e => .error e

mutual
/-- `Hiera.resolve(s, paths, context, merge)`: dicts and lists resolve
element-wise; a resolvable string goes through `resolve_function` and,
when the result is still a string, `resolve_interpolates`; anything else
passes through. -/
def resolve (gk : String → Except Err Value) (ctx : PyDict) : Value → Except Err Value
  | .dict es =>
    match resolve_entries gk ctx es with
    | .ok r => .ok (.dict r)
    | .error e => .error e
  | .list xs =>
    match resolve_items gk ctx xs with
    | .ok r => .ok (.list r)
    | .error e => .error e
  | .str s =>
    if can_resolve s then
      match resolve_function gk ctx s with
      | .ok (.str t) =>
        match resolve_interpolates t ctx with
        | .ok u => .ok (.str u)
        | .error e => .error e
      | r => r
    else .ok (.str s)
  | v => .ok v

/-- `Hiera.resolve_dict`. -/
def resolve_entries (gk : String → Except Err Value) (ctx : PyDict) :
    List (String × Value) → Except Err (List (String × Value))
  | [] => .ok []
  | (k, v) :: rest =>
    match resolve gk ctx v with
    | .error e => .error e
    | .ok v2 =>
      match resolve_entries gk ctx rest with
      | .error e => .error e
      | .ok r => .ok ((k, v2) :: r)

/-- `Hiera.resolve_list`. -/
def resolve_items (gk : String → Except Err Value) (ctx : PyDict) :
    List Value → Except Err (List Value)
  | [] => .ok []
  | v :: rest =>
    match resolve gk ctx v with
    | .error e => .error e
    | .ok v2 =>
      match resolve_items gk ctx rest with
      | .error e => .error e
      | .ok r => .ok (v2 :: r)
end

/-- The `for path in paths` loop of `Hiera.get_key`.  `macc` is the
single possible entry `merges[key]` (the dict only ever holds the looked
up key).  The skip conditions are exactly the source's: a `None` cached
document, a `None` key, a `KeyError` from `.lookup`, or a `None` lookup
result; `.lookup` on a non-dict document raises AttributeError, a
missing cache entry raises `KeyError(path)`, and every other lookup
exception propagates. -/
def get_key_loop (gk : String → Except Err Value) (key : Option String)
    (cache : Cache) (ctx : PyDict) (merge : Option MParam) :
    List String → Option MergeAcc → Except Err Value
  | [], macc =>
    match merge, macc with
    | some _, some acc =>
      match acc.value with
      | .null => .error (.keyError key)
      | v => .ok v
    | _, _ => .error (.keyError key)
  | p :: rest, macc =>
    match cacheGet cache p with
    | none => .error (.keyError (some p))
    | some doc =>
      match doc, key with
      | .null, _ => get_key_loop gk key cache ctx merge rest macc
      | _, none => get_key_loop gk key cache ctx merge rest macc
      | .dict es, some k =>
        match lookup (.dict es) k with
        | .error (.keyError _) => get_key_loop gk key cache ctx merge rest macc
        | .error e => .error e
        | .ok .null => get_key_loop gk key cache ctx merge rest macc
        | .ok cv =>
          let macc2 :=
            match merge, macc with
            | some mp, none => some (mkAcc mp)
            | _, _ => macc
          match resolve gk ctx cv with
          | .error e => .error e
          | .ok value =>
            match merge, macc2 with
            | some _, some acc =>
              match merge_value acc value with
              | .error e => .error e
              | .ok acc2 => get_key_loop gk key cache ctx merge rest (some acc2)
            | _, _ => .ok value
      | _, some _ => .error (.attributeError p)

/-- `Hiera.get_key(key, paths, context, merge)`.  The fuel drives the
source's unbounded recursion through `resolve_function`; when it runs
out the re-entry raises the stand-in for `RecursionError`. -/
def get_key : Nat → Option String → List String → Cache → PyDict → Option MParam →
    Except Err Value
  | 0, key, paths, cache, ctx, merge =>
    get_key_loop (fun _ => .error .recursionError) key cache ctx merge paths none
  | fuel + 1, key, paths, cache, ctx, merge =>
    get_key_loop (fun arg => get_key fuel (some arg) paths cache ctx merge)
      key cache ctx merge paths none

/-- The recursive `self.get_key(arg, paths, context, merge)` closure that
`resolve_function` re-enters with. -/
def reEntry (fuel : Nat) (paths : List String) (cache : Cache) (ctx : PyDict)
    (merge : Option MParam) : String → Except Err Value :=
  fun arg =>
    match fuel with
    | 0 => .error .recursionError
    | f + 1 => get_key f (some arg) paths cache ctx merge

theorem get_key_as_loop (fuel : Nat) (key : Option String) (paths : List String)
    (cache : Cache) (ctx : PyDict) (merge : Option MParam) :
    get_key fuel key paths cache ctx merge =
      get_key_loop (reEntry fuel paths cache ctx merge) key cache ctx merge paths none := by
  cases fuel <;> rfl

/-- `Hiera.resolve` as invoked from `get_key` at a given recursion depth. -/
def resolveTop (fuel : Nat) (paths : List String) (cache : Cache) (ctx : PyDict)
    (merge : Option MParam) (v : Value) : Except Err Value :=
  resolve (reEntry fuel paths cache ctx merge) ctx v

/-- `Hiera.get(key, default, merge, merge_deep, throw, context, **kwargs)`
over a fixed configuration, filesystem and starting cache.  Only
`KeyError` is recovered (to `default`, unless `throw`). -/
def hieraGet (fuel : Nat) (cfg : HieraConfig) (fs : Filesystem) (cache0 : Cache)
    (ictx : PyDict) (key : Option String) (dflt : Value) (mtyp : Option MTyp)
    (mdeep : Bool) (throw : Bool) (cctx kw : PyDict) : Except Err Value :=
  let nc := filterCtx (assembleCtx ictx cctx kw)
  match enumPaths cfg fs nc cache0 with
  | .error e => .error e
  | .ok (cache, paths) =>
    let merge : Option MParam := mtyp.map (fun t => (t, mdeep))
    match get_key fuel key paths cache nc merge with
    | .error (.keyError s) => if throw then .error (.keyError s) else .ok dflt
    | r => r

/-- `Hiera.has(key, **kwargs)` = `get(key, throw=True, **kwargs)` mapped
to a boolean, swallowing only `KeyError`. -/
def hieraHas (fuel : Nat) (cfg : HieraConfig) (fs : Filesystem) (cache0 : Cache)
    (ictx : PyDict) (key : Option String) (kw : PyDict) : Except Err Bool :=
  match hieraGet fuel cfg fs cache0 ictx key .null none false true [] kw with
  | .ok _ => .ok true
  | .error (.keyError _) => .ok false
  | .error e => .error e

/-- The `new_context` built by `ScopedHiera.get`: a fresh dict updated
with the bound context, then the per-call `context`, then the per-call
keyword overrides; it is passed to `Hiera.get` as the `context` argument
(with no keyword arguments). -/
def scopedGetNewContext (bound cctx kw : PyDict) : PyDict :=
  pyUpdate (pyUpdate (pyUpdate [] bound) cctx) kw

/-- The keyword dict that `ScopedHiera.has` delegates with:
`kwargs.update(self.context)` writes the BOUND context over the per-call
keywords. -/
def scopedHasKwargs (bound kw : PyDict) : PyDict :=
  pyUpdate kw bound

/-- `ScopedHiera.get` delegation:
`self.hiera.get(key, default, merge, merge_deep, throw, new_context)`. -/
def scopedGet (fuel : Nat) (cfg : HieraConfig) (fs : Filesystem) (cache0 : Cache)
    (ictx bound : PyDict) (key : Option String) (dflt : Value) (mtyp : Option MTyp)
    (mdeep : Bool) (throw : Bool) (cctx kw : PyDict) : Except Err Value :=
  hieraGet fuel cfg fs cache0 ictx key dflt mtyp mdeep throw
    (scopedGetNewContext bound cctx kw) []

/-- `ScopedHiera.has` delegation: `self.hiera.has(key, **kwargs)` after
`kwargs.update(self.context)`. -/
def scopedHas (fuel : Nat) (cfg : HieraConfig) (fs : Filesystem) (cache0 : Cache)
    (ictx bound : PyDict) (key : Option String) (kw : PyDict) : Except Err Bool :=
  hieraHas fuel cfg fs cache0 ictx key (scopedHasKwargs bound kw)

/-- Heap of Python dictionaries; a reference is an index.  Index 0 stands
for the shared mutable default argument `context={}` of
`Hiera.__init__`, index 1 for the one of `Hiera.scoped`. -/
abbrev Store : Type := List PyDict

def storeGet (s : Store) (r : Nat) : PyDict :=
  s.getD r []

def storeSet (s : Store) (r : Nat) (d : PyDict) : Store :=
  s.set r d

/-- Allocate a fresh dictionary, returning its reference. -/
def storeAlloc (s : Store) (d : PyDict) : Store × Nat :=
  (s ++ [d], s.length)

/-- Context handling of `Hiera.__init__(base_config, ..., context={}, **kwargs)`:
`self.context = context; self.context.update(kwargs)`.  The caller's
dictionary (or, when omitted, the shared default at reference 0) is kept
by reference and mutated in place; the returned reference is the
engine's `self.context`. -/
def hieraInitCtx (s : Store) (ctxRef : Option Nat) (kw : PyDict) : Store × Nat :=
  let r := ctxRef.getD 0
  (storeSet s r (pyUpdate (storeGet s r) kw), r)

/-- Context handling of `Hiera.scoped(context={}, **kwargs)`:
`context.update(kwargs); return ScopedHiera(self, context)`.  Same
by-reference mutation, with the shared default at reference 1. -/
def scopedCtx (s : Store) (ctxRef : Option Nat) (kw : PyDict) : Store × Nat :=
  let r := ctxRef.getD 1
  (storeSet s r (pyUpdate (storeGet s r) kw), r)

/-- Heap-level `ScopedHiera.get` context assembly: `new_context = {}` is
a FRESH dictionary (updated with the bound context and the per-call
arguments); no existing dictionary is written. -/
def scopedGetHeapCtx (s : Store) (boundRef : Nat) (cctx kw : PyDict) : Store × Nat :=
  storeAlloc s (scopedGetNewContext (storeGet s boundRef) cctx kw)

/-- C5: for mappings given to the deep merge where a key maps to a
sequence on the accumulator side: a sequence on the new side keeps the
accumulator sequence in order and appends only the new elements not
already present by Python equality; a non-sequence new value is
appended; and deepMerge(\x7blist: [1,2]\x7d, \x7blist: [2,3]\x7d) =
\x7blist: [1,2,3]\x7d. -/
theorem claim_C5_theorem :
    (∀ (a : List (String × Value)) (k : String) (xs vs : List Value),
      assocFind a k = some (.list xs) →
      deep_merge a (.dict [(k, .list vs)]) =
        .dict (assocSet a k (.list (xs ++ vs.filter (fun x => !pyMem xs x))))) ∧
    (∀ (a : List (String × Value)) (k : String) (xs : List Value) (v : Value),
      assocFind a k = some (.list xs) → (∀ ws, v ≠ .list ws) →
      deep_merge a (.dict [(k, v)]) = .dict (assocSet a k (.list (xs ++ [v])))) ∧
    deep_merge [("list", .list [.int 1, .int 2])] (.dict [("list", .list [.int 2, .int 3])])
      = .dict [("list", .list [.int 1, .int 2, .int 3])] := by
  refine ⟨?_, ?_, ?_⟩
  · intro a k xs vs h
    simp [deep_merge, dmEntries, h]
  · intro a k xs v h hv
    cases v with
    | list ws => exact absurd rfl (hv ws)
    | null => simp [deep_merge, dmEntries, h]
    | bool b => simp [deep_merge, dmEntries, h]
    | int n => simp [deep_merge, dmEntries, h]
    | str s => simp [deep_merge, dmEntries, h]
    | dict es => simp [deep_merge, dmEntries, h]
    | pyset ys => simp [deep_merge, dmEntries, h]
  · rfl

/-- Witness for C5 at concrete inputs. -/
theorem claim_C5_witness :
    deep_merge [("l", .list [.int 1])] (.dict [("l", .list [.int 1, .int 7])])
      = .dict [("l", .list [.int 1, .int 7])] ∧
    deep_merge [("l", .list [.int 1])] (.dict [("l", .int 9)])
      = .dict [("l", .list [.int 1, .int 9])] :=
  ⟨(claim_C5_theorem.1 [("l", .list [.int 1])] "l" [.int 1] [.int 1, .int 7] rfl).trans rfl,
   (claim_C5_theorem.2.1 [("l", .list [.int 1])] "l" [.int 1] (.int 9) rfl
      (fun _ h => Value.noConfusion h)).trans rfl⟩

/-- C7: the document-cache load returns the cached entry without invoking
the backend when the path was loaded before; a read/parse failure is
wrapped with the path and the backend's error, leaves the cache
unchanged, and propagates so the whole lookup aborts instead of skipping
to the next candidate. -/
theorem claim_C7_theorem :
    (∀ (cache : Cache) (path : String) (d : Value)
        (b1 b2 : String → Except String Value),
      cacheGet cache path = some d →
      load_file cache b1 false path = (.ok path, cache) ∧
      load_file cache b1 false path = load_file cache b2 false path) ∧
    (∀ (cache : Cache) (path e : String) (b : String → Except String Value),
      cacheGet cache path = none → b path = .error e →
      load_file cache b false path =
        (.error (.otherError ("Failed to load file " ++ path ++ ": `" ++ e ++ "`")), cache)) ∧
    (∀ (fuel : Nat) (cfg : HieraConfig) (fs : Filesystem) (cache0 : Cache)
        (ictx cctx kw : PyDict) (key : Option String) (dflt : Value)
        (mtyp : Option MTyp) (mdeep thr : Bool) (e : Err),
      enumPaths cfg fs (filterCtx (assembleCtx ictx cctx kw)) cache0 = .error e →
      hieraGet fuel cfg fs cache0 ictx key dflt mtyp mdeep thr cctx kw = .error e) ∧
    (∀ (cfg : HieraConfig) (fs : Filesystem) (b : Backend) (t : Tmpl) (ctx : PyDict)
        (st : Cache × List String) (dd pp e : String),
      render b.datadir ctx = some dd → render t ctx = some pp →
      fs.isDir (pjoin (pjoin cfg.basePath dd) pp) = false →
      fs.pathExists (pjoin (pjoin cfg.basePath dd) pp ++ "." ++ b.name) = true →
      cacheGet st.1 (pjoin (pjoin cfg.basePath dd) pp ++ "." ++ b.name) = none →
      b.loadDoc (pjoin (pjoin cfg.basePath dd) pp ++ "." ++ b.name) = .error e →
      pairStep cfg fs b t ctx st =
        .error (.otherError ("Failed to load file "
          ++ (pjoin (pjoin cfg.basePath dd) pp ++ "." ++ b.name) ++ ": `" ++ e ++ "`"))) := by
  refine ⟨?_, ?_, ?_, ?_⟩
  · intro cache path d b1 b2 h
    constructor <;> simp [load_file, h]
  · intro cache path e b h hb
    simp [load_file, h, hb]
  · intro fuel cfg fs cache0 ictx cctx kw key dflt mtyp mdeep thr e h
    simp only [hieraGet, h]
  · intro cfg fs b t ctx st dd pp e h1 h2 h3 h4 h5 h6
    simp [pairStep, load_file, h1, h2, h3, h4, h5, h6]

/-- Witness for C7 at concrete inputs. -/
theorem claim_C7_witness :
    load_file [("p", .int 1)] (fun _ => .error "boom") false "p" = (.ok "p", [("p", .int 1)]) ∧
    load_file [] (fun _ => .error "boom") false "p" =
      (.error (.otherError ("Failed to load file p: `boom`")), []) :=
  ⟨(claim_C7_theorem.1 [("p", .int 1)] "p" (.int 1)
      (fun _ => .error "boom") (fun _ => .error "boom") rfl).1,
   claim_C7_theorem.2.1 [] "p" "boom" (fun _ => .error "boom") rfl rfl⟩

theorem pyGet_upsert (d : PyDict) (k1 k : String) (v : Value) :
    pyGet (upsert d k1 v) k = if k1 = k then some v else pyGet d k := by
  induction d with
  | nil => simp [upsert, pyGet]
  | cons kv rest ih =>
    obtain ⟨k2, v2⟩ := kv
    by_cases h2 : k2 = k1
    · subst h2
      by_cases h4 : k2 = k
      · simp [upsert, pyGet, h4]
      · simp [upsert, pyGet, h4]
    · simp only [upsert, if_neg h2, pyGet]
      by_cases h3 : k2 = k
      · subst h3
        have : ¬ k1 = k2 := fun h => h2 h.symm
        simp [this]
      · simp [h3, ih]

theorem pyGet_pyUpdate (src d : PyDict) (k : String) :
    pyGet (pyUpdate d src) k =
      match lastGet src k with
      | some w => some w
      | none => pyGet d k := by
  induction src generalizing d with
  | nil => simp [pyUpdate, lastGet]
  | cons kv rest ih =>
    obtain ⟨k1, v1⟩ := kv
    simp only [pyUpdate, lastGet, ih (upsert d k1 v1)]
    cases h : lastGet rest k with
    | some w => simp
    | none =>
      by_cases h1 : k1 = k
      · simp [h1, pyGet_upsert]
      · simp [h1, pyGet_upsert]

theorem storeGet_storeSet_self (s : Store) (r : Nat) (d : PyDict) (h : r < s.length) :
    storeGet (storeSet s r d) r = d := by
  simp [storeGet, storeSet, List.getD, List.getElem?_set_self, h]

theorem storeGet_append_lt (s : Store) (d : PyDict) (q : Nat) (h : q < s.length) :
    storeGet (s ++ [d]) q = storeGet s q := by
  simp [storeGet, List.getD, List.getElem?_append, h]

/-- C10: `Hiera.__init__` and `Hiera.scoped` keep the caller's context
dictionary by reference and insert the keyword overrides into it in
place, so the caller-supplied dictionary is mutated; and because the
default argument is one shared dictionary, entries inserted by a call
that omits `context` persist into later constructions that also omit
it. -/
theorem claim_C10_theorem :
    (∀ (s : Store) (r : Nat) (kw : PyDict), r < s.length →
      storeGet (hieraInitCtx s (some r) kw).1 r = pyUpdate (storeGet s r) kw ∧
      (hieraInitCtx s (some r) kw).2 = r) ∧
    (∀ (s : Store) (r : Nat) (k : String) (v : Value), r < s.length →
      pyGet (storeGet s r) k = none →
      storeGet (hieraInitCtx s (some r) [(k, v)]).1 r ≠ storeGet s r) ∧
    (∀ (s : Store) (r : Nat) (kw : PyDict), r < s.length →
      storeGet (scopedCtx s (some r) kw).1 r = pyUpdate (storeGet s r) kw ∧
      (scopedCtx s (some r) kw).2 = r) ∧
    (∀ (s : Store) (k : String) (v : Value), 0 < s.length →
      pyGet (storeGet (hieraInitCtx (hieraInitCtx s none [(k, v)]).1 none []).1
        (hieraInitCtx (hieraInitCtx s none [(k, v)]).1 none []).2) k = some v) ∧
    (∀ (s : Store) (k : String) (v : Value), 1 < s.length →
      pyGet (storeGet (scopedCtx (scopedCtx s none [(k, v)]).1 none []).1
        (scopedCtx (scopedCtx s none [(k, v)]).1 none []).2) k = some v) := by
  refine ⟨?_, ?_, ?_, ?_, ?_⟩
  · intro s r kw h
    exact ⟨storeGet_storeSet_self s r _ h, rfl⟩
  · intro s r k v h hk heq
    have h1 : storeGet (hieraInitCtx s (some r) [(k, v)]).1 r =
        pyUpdate (storeGet s r) [(k, v)] := storeGet_storeSet_self s r _ h
    rw [h1] at heq
    have h2 : pyGet (pyUpdate (storeGet s r) [(k, v)]) k = some v := by
      rw [pyGet_pyUpdate]
      simp [lastGet]
    rw [heq, hk] at h2
    exact Option.noConfusion h2
  · intro s r kw h
    exact ⟨storeGet_storeSet_self s r _ h, rfl⟩
  · intro s k v h
    have hlen : 0 < (hieraInitCtx s none [(k, v)]).1.length := by
      simpa [hieraInitCtx, storeSet] using h
    have h1 : storeGet (hieraInitCtx s none [(k, v)]).1 0 =
        pyUpdate (storeGet s 0) [(k, v)] := storeGet_storeSet_self s 0 _ h
    have h2 := storeGet_storeSet_self (hieraInitCtx s none [(k, v)]).1 0
      (pyUpdate (storeGet (hieraInitCtx s none [(k, v)]).1 0) []) hlen
    simp only [hieraInitCtx, Option.getD] at h1 h2 ⊢
    rw [h2, pyUpdate, h1, pyGet_pyUpdate]
    simp [lastGet]
  · intro s k v h
    have hlen : 1 < (scopedCtx s none [(k, v)]).1.length := by
      simpa [scopedCtx, storeSet] using h
    have h1 : storeGet (scopedCtx s none [(k, v)]).1 1 =
        pyUpdate (storeGet s 1) [(k, v)] := storeGet_storeSet_self s 1 _ h
    have h2 := storeGet_storeSet_self (scopedCtx s none [(k, v)]).1 1
      (pyUpdate (storeGet (scopedCtx s none [(k, v)]).1 1) []) hlen
    simp only [scopedCtx, Option.getD] at h1 h2 ⊢
    rw [h2, pyUpdate, h1, pyGet_pyUpdate]
    simp [lastGet]

/-- Witness for C10: a store whose slot 0/1 hold the (initially empty)
default dictionaries; one keyword override mutates the caller's dict,
and persists across a second default-argument construction. -/
theorem claim_C10_witness :
    storeGet (hieraInitCtx [[], []] (some 0) [("env", .str "prod")]).1 0 =
      pyUpdate (storeGet [([] : PyDict), []] 0) [("env", .str "prod")] ∧
    storeGet (hieraInitCtx [[], []] (some 0) [("env", .str "prod")]).1 0 ≠
      storeGet [([] : PyDict), []] 0 ∧
    pyGet (storeGet (hieraInitCtx (hieraInitCtx [[], []] none [("env", .str "prod")]).1 none []).1
      (hieraInitCtx (hieraInitCtx [[], []] none [("env", .str "prod")]).1 none []).2) "env" =
      some (.str "prod") :=
  ⟨(claim_C10_theorem.1 [[], []] 0 [("env", .str "prod")] (by simp)).1,
   claim_C10_theorem.2.1 [[], []] 0 "env" (.str "prod") (by simp) rfl,
   claim_C10_theorem.2.2.2.1 [[], []] "env" (.str "prod") (by simp)⟩

/-- C8 counterexample: in a delegated `has` call, a per-call keyword
override colliding with the bound context LOSES: `ScopedHiera.has` runs
`kwargs.update(self.context)`, so the bound value overwrites the
per-call one, and the effective context seen by the engine maps the
variable to the bound value — contradicting the claim that per-call
entries win on every delegated `get`/`has` call. -/
theorem claim_C8_counterexample :
    pyGet (filterCtx (assembleCtx [] []
        (scopedHasKwargs [("x", .str "bound")] [("x", .str "percall")]))) "x" =
      some (.str "bound") ∧
    Value.str "bound" ≠ Value.str "percall" :=
  ⟨rfl, by simp⟩

/-- C8 (amended): a delegated `get` builds its effective context with
per-call entries winning over the bound context, but a delegated `has`
builds its keyword dict with the BOUND context winning over per-call
keywords; in either case no existing dictionary (in particular neither
the parent engine's default context nor the bound context) is mutated —
the view assembles a fresh dictionary. -/
theorem claim_C8_theorem :
    (∀ (bound cctx kw : PyDict) (k : String),
      pyGet (scopedGetNewContext bound cctx kw) k =
        match lastGet kw k with
        | some w => some w
        | none =>
          match lastGet cctx k with
          | some w => some w
          | none => lastGet bound k) ∧
    (∀ (bound kw : PyDict) (k : String),
      pyGet (scopedHasKwargs bound kw) k =
        match lastGet bound k with
        | some w => some w
        | none => pyGet kw k) ∧
    (∀ (s : Store) (boundRef : Nat) (cctx kw : PyDict) (q : Nat), q < s.length →
      storeGet (scopedGetHeapCtx s boundRef cctx kw).1 q = storeGet s q) := by
  refine ⟨?_, ?_, ?_⟩
  · intro bound cctx kw k
    simp only [scopedGetNewContext, pyGet_pyUpdate]
    cases lastGet kw k with
    | some w => rfl
    | none =>
      cases lastGet cctx k with
      | some w => rfl
      | none =>
        cases h : lastGet bound k with
        | some w => simp
        | none => simp [pyGet]
  · intro bound kw k
    simp only [scopedHasKwargs, pyGet_pyUpdate]
  · intro s boundRef cctx kw q h
    exact storeGet_append_lt s _ q h

/-- Witness for C8 at concrete inputs. -/
theorem claim_C8_witness :
    pyGet (scopedGetNewContext [("x", .str "b")] [] [("x", .str "p")]) "x" = some (.str "p") ∧
    pyGet (scopedHasKwargs [("x", .str "b")] [("x", .str "p")]) "x" = some (.str "b") ∧
    storeGet (scopedGetHeapCtx [[("e", .str "v")], []] 1 [] [("x", .str "p")]).1 0 =
      [("e", .str "v")] :=
  ⟨(claim_C8_theorem.1 [("x", .str "b")] [] [("x", .str "p")] "x").trans rfl,
   (claim_C8_theorem.2.1 [("x", .str "b")] [("x", .str "p")] "x").trans rfl,
   (claim_C8_theorem.2.2 [[("e", .str "v")], []] 1 [] [("x", .str "p")] 0 (by simp)).trans rfl⟩

theorem splitDotGo_no_dot (cs : List Char) (acc : List Char) (h : '.' ∉ cs) :
    splitDotGo cs acc = [String.mk (acc.reverse ++ cs)] := by
  induction cs generalizing acc with
  | nil => simp [splitDotGo]
  | cons c rest ih =>
    have hc : ¬ c = '.' := fun hh => h (hh ▸ List.mem_cons_self c rest)
    have hrest : '.' ∉ rest := fun hh => h (List.mem_cons_of_mem c hh)
    simp [splitDotGo, hc, ih (c :: acc) hrest]

theorem splitDotGo_dot (pre rest : List Char) (acc : List Char) (h : '.' ∉ pre) :
    splitDotGo (pre ++ '.' :: rest) acc =
      String.mk (acc.reverse ++ pre) :: splitDotGo rest [] := by
  induction pre generalizing acc with
  | nil => simp [splitDotGo]
  | cons c pre2 ih =>
    have hc : ¬ c = '.' := fun hh => h (hh ▸ List.mem_cons_self c pre2)
    have hpre : '.' ∉ pre2 := fun hh => h (List.mem_cons_of_mem c hh)
    simp [splitDotGo, hc, ih (c :: acc) hpre]

theorem pySplitDot_single (k : String) (h : '.' ∉ k.data) :
    pySplitDot k = [k] := by
  simp [pySplitDot, splitDotGo_no_dot k.data [] h]

theorem pySplitDot_two (k seg : String) (hk : '.' ∉ k.data) (hs : '.' ∉ seg.data) :
    pySplitDot (k ++ "." ++ seg) = [k, seg] := by
  have hdata : (k ++ "." ++ seg).data = k.data ++ '.' :: seg.data := by
    simp [String.data_append]
  simp [pySplitDot, hdata, splitDotGo_dot k.data seg.data [] hk,
    splitDotGo_no_dot seg.data [] hs]

/-- C3 counterexample: an out-of-range numeric segment over a sequence
raises IndexError, not the not-found signal, and `get_key` propagates it
as a crash instead of treating the key as absent — refuting the claim
that document lookup never raises an index/type crash. -/
theorem claim_C3_counterexample :
    errKind (lookup (.dict [("a", .list [.int 1, .int 2])]) "a.5") = some .index ∧
    errKind (get_key 0 (some "a.5") ["p"]
      [("p", .dict [("a", .list [.int 1, .int 2])]), ("q", .dict [("a.5", .int 7)])]
      [] none) = some .index ∧
    ErrKind.index ≠ ErrKind.key :=
  ⟨rfl, rfl, by decide⟩

/-- C3 (amended): a dotted lookup whose mapping segment is absent fails
with KeyError, the signal the engine treats as key-absent; but a
non-numeric segment over a sequence raises ValueError, an out-of-range
index raises IndexError, a segment applied to a scalar raises TypeError,
and `get_key` propagates those three instead of skipping to the next
candidate. -/
theorem claim_C3_theorem :
    (∀ (es : List (String × Value)) (k : String), '.' ∉ k.data →
      pyGet es k = none →
      lookup (.dict es) k = .error (.keyError (some k))) ∧
    (∀ (es : List (String × Value)) (k seg : String) (xs : List Value),
      '.' ∉ k.data → '.' ∉ seg.data →
      pyGet es k = some (.list xs) → pyParseInt seg = none →
      lookup (.dict es) (k ++ "." ++ seg) = .error (.valueError seg)) ∧
    (∀ (es : List (String × Value)) (k seg : String) (xs : List Value) (i : Int),
      '.' ∉ k.data → '.' ∉ seg.data →
      pyGet es k = some (.list xs) → pyParseInt seg = some i →
      ((xs.length : Int) ≤ i ∨ i + (xs.length : Int) < 0) →
      lookup (.dict es) (k ++ "." ++ seg) = .error (.indexError seg)) ∧
    (∀ (es : List (String × Value)) (k seg : String) (n : Int),
      '.' ∉ k.data → '.' ∉ seg.data →
      pyGet es k = some (.int n) →
      lookup (.dict es) (k ++ "." ++ seg) =
        .error (.typeError "object is not subscriptable")) ∧
    (∀ (fuel : Nat) (k p : String) (rest : List String) (cache : Cache)
        (ctx : PyDict) (merge : Option MParam) (es : List (String × Value)) (m : String),
      cacheGet cache p = some (.dict es) →
      lookup (.dict es) k = .error (.indexError m) →
      get_key fuel (some k) (p :: rest) cache ctx merge = .error (.indexError m)) := by
  refine ⟨?_, ?_, ?_, ?_, ?_⟩
  · intro es k hk h
    simp [lookup, pySplitDot_single k hk, lookupSegs, lookupStep, h]
  · intro es k seg xs hk hs h hp
    simp [lookup, pySplitDot_two k seg hk hs, lookupSegs, lookupStep, h, hp]
  · intro es k seg xs i hk hs h hp hrange
    simp only [lookup, pySplitDot_two k seg hk hs, lookupSegs, lookupStep, h, hp]
    rcases hrange with hge | hneg
    · have hi0 : ¬ i < 0 := by omega
      have hj : ¬ (i : Int) < 0 := hi0
      simp only [if_neg hi0]
      have hnone : xs[i.toNat]? = none := List.getElem?_eq_none (by omega)
      simp [hj, hnone]
    · have hi0 : i < 0 := by omega
      simp only [if_pos hi0]
      have : i + (xs.length : Int) < 0 := hneg
      simp [this]
  · intro es k seg n hk hs h
    simp [lookup, pySplitDot_two k seg hk hs, lookupSegs, lookupStep, h]
  · intro fuel k p rest cache ctx merge es m hc hl
    rw [get_key_as_loop]
    simp [get_key_loop, hc, hl]

/-- Witness for C3 at concrete inputs. -/
theorem claim_C3_witness :
    lookup (.dict [("b", .int 0)]) "a" = .error (.keyError (some "a")) ∧
    lookup (.dict [("a", .list [.int 1])]) "a.x" = .error (.valueError "x") ∧
    lookup (.dict [("a", .list [.int 1])]) "a.3" = .error (.indexError "3") ∧
    lookup (.dict [("a", .int 9)]) "a.b" = .error (.typeError "object is not subscriptable") ∧
    get_key 0 (some "a.3") ["p"] [("p", .dict [("a", .list [.int 1])])] [] none =
      .error (.indexError "3") :=
  ⟨claim_C3_theorem.1 [("b", .int 0)] "a" (by decide) rfl,
   claim_C3_theorem.2.1 [("a", .list [.int 1])] "a" "x" [.int 1] (by decide) (by decide) rfl rfl,
   claim_C3_theorem.2.2.1 [("a", .list [.int 1])] "a" "3" [.int 1] 3 (by decide) (by decide)
     rfl rfl (by norm_num),
   claim_C3_theorem.2.2.2.1 [("a", .int 9)] "a" "b" 9 (by decide) (by decide) rfl,
   claim_C3_theorem.2.2.2.2 0 "a.3" "p" [] [("p", .dict [("a", .list [.int 1])])] [] none
     [("a", .list [.int 1])] "3" rfl rfl⟩

/-- A candidate path that contributes no hit for `key`: its cached
document is `None`, or the dotted lookup raises `KeyError`, or it yields
`None` (all three make `get_key` move on to the next path). -/
def skipsAt (cache : Cache) (p : String) (k : String) : Bool :=
  match cacheGet cache p with
  | some .null => true
  | some (.dict es) =>
    match lookup (.dict es) k with
    | .error (.keyError _) => true
    | .ok .null => true
    | _ => false
  | _ => false

theorem get_key_loop_all_skips (cache : Cache) (ctx : PyDict) (k : String)
    (gk : String → Except Err Value) (merge : Option MParam) :
    ∀ (paths : List String), (∀ p ∈ paths, skipsAt cache p k = true) →
      get_key_loop gk (some k) cache ctx merge paths none = .error (.keyError (some k))
  | [], _ => by cases merge <;> simp [get_key_loop]
  | p :: rest, h => by
    have hp := h p (List.mem_cons_self p rest)
    have ih := get_key_loop_all_skips cache ctx k gk merge rest
      (fun q hq => h q (List.mem_cons_of_mem p hq))
    unfold skipsAt at hp
    cases hc : cacheGet cache p with
    | none => rw [hc] at hp; exact absurd hp (by simp)
    | some doc =>
      rw [hc] at hp
      cases doc with
      | null => simpa [get_key_loop, hc] using ih
      | bool b => exact absurd hp (by simp)
      | int n => exact absurd hp (by simp)
      | str s => exact absurd hp (by simp)
      | list xs => exact absurd hp (by simp)
      | pyset xs => exact absurd hp (by simp)
      | dict es =>
        have hp3 : (match lookup (.dict es) k with
            | .error (.keyError _) => true
            | .ok .null => true
            | _ => false) = true := hp
        clear hp
        rename' hp3 => hp
        cases hl : lookup (.dict es) k with
        | error e =>
          cases e with
          | keyError s => simpa [get_key_loop, hc, hl] using ih
          | indexError m => rw [hl] at hp; exact absurd hp (by simp)
          | typeError m => rw [hl] at hp; exact absurd hp (by simp)
          | valueError m => rw [hl] at hp; exact absurd hp (by simp)
          | attributeError m => rw [hl] at hp; exact absurd hp (by simp)
          | interpolationError m => rw [hl] at hp; exact absurd hp (by simp)
          | otherError m => rw [hl] at hp; exact absurd hp (by simp)
          | recursionError => rw [hl] at hp; exact absurd hp (by simp)
        | ok v =>
          cases v with
          | null => simpa [get_key_loop, hc, hl] using ih
          | bool b => rw [hl] at hp; exact absurd hp (by simp)
          | int n => rw [hl] at hp; exact absurd hp (by simp)
          | str s => rw [hl] at hp; exact absurd hp (by simp)
          | list xs => rw [hl] at hp; exact absurd hp (by simp)
          | dict es2 => rw [hl] at hp; exact absurd hp (by simp)
          | pyset xs => rw [hl] at hp; exact absurd hp (by simp)

/-- C2: when the key is absent from every candidate document (and, when
merging, the accumulator hence never receives a hit), `get` returns the
caller's default with `throw=false` and raises `KeyError` with
`throw=true`; and `KeyError` (not-found) is the only error kind the
`get` wrapper recovers from. -/
theorem claim_C2_theorem :
    (∀ (fuel : Nat) (cfg : HieraConfig) (fs : Filesystem) (cache0 : Cache)
        (ictx cctx kw : PyDict) (k : String) (dflt : Value) (mtyp : Option MTyp)
        (mdeep : Bool) (cache : Cache) (paths : List String),
      enumPaths cfg fs (filterCtx (assembleCtx ictx cctx kw)) cache0 = .ok (cache, paths) →
      (∀ p ∈ paths, skipsAt cache p k = true) →
      hieraGet fuel cfg fs cache0 ictx (some k) dflt mtyp mdeep false cctx kw = .ok dflt ∧
      hieraGet fuel cfg fs cache0 ictx (some k) dflt mtyp mdeep true cctx kw =
        .error (.keyError (some k))) ∧
    (∀ (fuel : Nat) (cfg : HieraConfig) (fs : Filesystem) (cache0 : Cache)
        (ictx cctx kw : PyDict) (key : Option String) (dflt : Value) (mtyp : Option MTyp)
        (mdeep thr : Bool) (cache : Cache) (paths : List String) (e : Err),
      enumPaths cfg fs (filterCtx (assembleCtx ictx cctx kw)) cache0 = .ok (cache, paths) →
      get_key fuel key paths cache (filterCtx (assembleCtx ictx cctx kw))
        (mtyp.map (fun t => (t, mdeep))) = .error e →
      e.kind ≠ .key →
      hieraGet fuel cfg fs cache0 ictx key dflt mtyp mdeep thr cctx kw = .error e) := by
  constructor
  · intro fuel cfg fs cache0 ictx cctx kw k dflt mtyp mdeep cache paths henum hmiss
    have hk : get_key fuel (some k) paths cache (filterCtx (assembleCtx ictx cctx kw))
        (mtyp.map (fun t => (t, mdeep))) = .error (.keyError (some k)) := by
      rw [get_key_as_loop]
      exact get_key_loop_all_skips _ _ _ _ _ paths hmiss
    constructor <;> simp [hieraGet, henum, hk]
  · intro fuel cfg fs cache0 ictx cctx kw key dflt mtyp mdeep thr cache paths e henum hk hkind
    cases e with
    | keyError s => exact absurd rfl hkind
    | indexError m => simp [hieraGet, henum, hk]
    | typeError m => simp [hieraGet, henum, hk]
    | valueError m => simp [hieraGet, henum, hk]
    | attributeError m => simp [hieraGet, henum, hk]
    | interpolationError m => simp [hieraGet, henum, hk]
    | otherError m => simp [hieraGet, henum, hk]
    | recursionError => simp [hieraGet, henum, hk]

/-- Build the markup string for one function call, e.g.
`%\x7balias('k')\x7d`. -/
def mkFuncStr (fn arg : String) : String :=
  String.mk ['%', lbC] ++ fn ++ "(" ++ sqS ++ arg ++ sqS ++ ")" ++ String.mk [rbC]

/-- Build the bare-interpolation markup string `%\x7bvar\x7d`. -/
def mkInterpStr (v : String) : String :=
  String.mk ['%', lbC] ++ v ++ String.mk [rbC]

/-- Fixture document at the first candidate path: maps `k` to `None`. -/
def docA : Value := .dict [("k", .null), ("m", .str "first")]

/-- Fixture document at the second candidate path. -/
def docB : Value :=
  .dict [("k", .int 5), ("m", .str "second"), ("al", .str (mkFuncStr "alias" "k"))]

def fxBackend : Backend :=
  { name := "yaml", datadir := [.lit "data"],
    loadDoc := fun p =>
      if p = "base/data/a.yaml" then .ok docA
      else if p = "base/data/b.yaml" then .ok docB
      else .error "nope" }

def fxCfg : HieraConfig :=
  { basePath := "base", backends := [fxBackend], hierarchy := [[.lit "a"], [.lit "b"]] }

def fxFs : Filesystem :=
  { isDir := fun _ => false,
    pathExists := fun p => p == "base/data/a.yaml" || p == "base/data/b.yaml",
    walk := fun _ => [] }

/-- The cache produced by enumerating `fxCfg` over `fxFs`. -/
def fxCache : Cache := [("base/data/a.yaml", docA), ("base/data/b.yaml", docB)]

/-- Witness for C2 at concrete inputs: a key absent everywhere comes back
as the default, or as `KeyError` under `throw`. -/
theorem claim_C2_witness :
    hieraGet 1 fxCfg fxFs [] [] (some "missing.key") (.int 42) none false false [] [] =
      .ok (.int 42) ∧
    hieraGet 1 fxCfg fxFs [] [] (some "missing.key") (.int 42) none false true [] [] =
      .error (.keyError (some "missing.key")) :=
  claim_C2_theorem.1 1 fxCfg fxFs [] [] [] [] "missing.key" (.int 42) none false
    fxCache ["base/data/a.yaml", "base/data/b.yaml"] rfl (by decide)

theorem get_key_loop_skip_prefix (cache : Cache) (ctx : PyDict) (k : String)
    (gk : String → Except Err Value) (merge : Option MParam) (macc : Option MergeAcc) :
    ∀ (ps1 rest : List String), (∀ p ∈ ps1, skipsAt cache p k = true) →
      get_key_loop gk (some k) cache ctx merge (ps1 ++ rest) macc =
        get_key_loop gk (some k) cache ctx merge rest macc
  | [], rest, _ => rfl
  | p :: ps2, rest, h => by
    have hp := h p (List.mem_cons_self p ps2)
    have ih := get_key_loop_skip_prefix cache ctx k gk merge macc ps2 rest
      (fun q hq => h q (List.mem_cons_of_mem p hq))
    unfold skipsAt at hp
    cases hc : cacheGet cache p with
    | none => rw [hc] at hp; exact absurd hp (by simp)
    | some doc =>
      rw [hc] at hp
      cases doc with
      | null => simpa [get_key_loop, hc] using ih
      | bool b => exact absurd hp (by simp)
      | int n => exact absurd hp (by simp)
      | str s => exact absurd hp (by simp)
      | list xs => exact absurd hp (by simp)
      | pyset xs => exact absurd hp (by simp)
      | dict es =>
        have hp4 : (match lookup (.dict es) k with
            | .error (.keyError _) => true
            | .ok .null => true
            | _ => false) = true := hp
        clear hp
        cases hl : lookup (.dict es) k with
        | error e =>
          cases e with
          | keyError s => simpa [get_key_loop, hc, hl] using ih
          | indexError m => rw [hl] at hp4; exact absurd hp4 (by simp)
          | typeError m => rw [hl] at hp4; exact absurd hp4 (by simp)
          | valueError m => rw [hl] at hp4; exact absurd hp4 (by simp)
          | attributeError m => rw [hl] at hp4; exact absurd hp4 (by simp)
          | interpolationError m => rw [hl] at hp4; exact absurd hp4 (by simp)
          | otherError m => rw [hl] at hp4; exact absurd hp4 (by simp)
          | recursionError => rw [hl] at hp4; exact absurd hp4 (by simp)
        | ok v =>
          cases v with
          | null => simpa [get_key_loop, hc, hl] using ih
          | bool b => rw [hl] at hp4; exact absurd hp4 (by simp)
          | int n => rw [hl] at hp4; exact absurd hp4 (by simp)
          | str s => rw [hl] at hp4; exact absurd hp4 (by simp)
          | list xs => rw [hl] at hp4; exact absurd hp4 (by simp)
          | dict es2 => rw [hl] at hp4; exact absurd hp4 (by simp)
          | pyset xs => rw [hl] at hp4; exact absurd hp4 (by simp)

theorem get_key_loop_hit (cache : Cache) (ctx : PyDict) (k : String)
    (gk : String → Except Err Value) (p : String) (rest : List String)
    (es : List (String × Value)) (v : Value)
    (hc : cacheGet cache p = some (.dict es))
    (hl : lookup (.dict es) k = .ok v) (hv : v ≠ .null) :
    get_key_loop gk (some k) cache ctx none (p :: rest) none = resolve gk ctx v := by
  have hres : (match resolve gk ctx v with
      | .error e => .error e
      | .ok value => (.ok value : Except Err Value)) = resolve gk ctx v := by
    cases resolve gk ctx v <;> rfl
  cases v with
  | null => exact absurd rfl hv
  | bool b => simp [get_key_loop, hc, hl, hres]
  | int n => simp [get_key_loop, hc, hl, hres]
  | str s => simp [get_key_loop, hc, hl, hres]
  | list xs => simp [get_key_loop, hc, hl, hres]
  | dict es2 => simp [get_key_loop, hc, hl, hres]
  | pyset xs => simp [get_key_loop, hc, hl, hres]

theorem enumLevels_as_pairs (cfg : HieraConfig) (fs : Filesystem) (b : Backend)
    (ctx : PyDict) :
    ∀ (ts : List Tmpl) (st : Cache × List String),
      enumLevels cfg fs b ctx ts st =
        enumPairs cfg fs ctx (ts.map (fun t => (b, t))) st
  | [], st => rfl
  | t :: ts, st => by
    simp only [enumLevels, List.map, enumPairs]
    cases pairStep cfg fs b t ctx st with
    | ok st2 => exact enumLevels_as_pairs cfg fs b ctx ts st2
    | error e => rfl

theorem enumPairs_append (cfg : HieraConfig) (fs : Filesystem) (ctx : PyDict) :
    ∀ (l1 l2 : List (Backend × Tmpl)) (st : Cache × List String),
      enumPairs cfg fs ctx (l1 ++ l2) st =
        match enumPairs cfg fs ctx l1 st with
        | .ok st2 => enumPairs cfg fs ctx l2 st2
        | .error e => .error e
  | [], l2, st => rfl
  | (b, t) :: l1, l2, st => by
    simp only [List.cons_append, enumPairs]
    cases pairStep cfg fs b t ctx st with
    | ok st2 => exact enumPairs_append cfg fs ctx l1 l2 st2
    | error e => rfl

theorem enumBackends_as_pairs (cfg : HieraConfig) (fs : Filesystem) (ctx : PyDict) :
    ∀ (bs : List Backend) (st : Cache × List String),
      enumBackends cfg fs ctx bs st =
        enumPairs cfg fs ctx (bs.flatMap (fun b => cfg.hierarchy.map (fun t => (b, t)))) st
  | [], st => rfl
  | b :: bs, st => by
    simp only [enumBackends, List.flatMap_cons, enumPairs_append,
      ← enumLevels_as_pairs cfg fs b ctx cfg.hierarchy st]
    cases enumLevels cfg fs b ctx cfg.hierarchy st with
    | ok st2 => exact enumBackends_as_pairs cfg fs ctx bs st2
    | error e => rfl

/-- C1 counterexample: the earliest candidate document DOES contain `k`
(mapped to `None`), yet `get` returns the value from the later
candidate — the scan skips `None`-valued hits instead of
short-circuiting at the earliest path containing the key, so a later
candidate document does affect the result. -/
theorem claim_C1_counterexample :
    hieraGet 1 fxCfg fxFs [] [] (some "k") (.str "dflt") none false false [] [] =
      .ok (.int 5) ∧
    lookup docA "k" = .ok .null ∧
    cacheGet fxCache "base/data/a.yaml" = some docA ∧
    Value.int 5 ≠ Value.null :=
  ⟨rfl, rfl, rfl, by simp⟩

/-- C1 (amended): candidate paths are enumerated backend-major then
hierarchy-minor, and with no merge strategy `get(k)` returns the
resolved value found at the earliest candidate path whose document
yields a NON-NULL value for `k`; candidates whose lookup misses or
yields `None` are skipped, and the scan short-circuits at that first
non-null hit. -/
theorem claim_C1_theorem :
    (∀ (cfg : HieraConfig) (fs : Filesystem) (ctx : PyDict) (cache0 : Cache),
      enumPaths cfg fs ctx cache0 =
        enumPairs cfg fs ctx
          (cfg.backends.flatMap (fun b => cfg.hierarchy.map (fun t => (b, t))))
          (cache0, [])) ∧
    (∀ (fuel : Nat) (cfg : HieraConfig) (fs : Filesystem) (cache0 : Cache)
        (ictx cctx kw : PyDict) (k : String) (dflt : Value) (thr : Bool)
        (cache : Cache) (ps1 ps2 : List String) (p : String)
        (es : List (String × Value)) (v : Value),
      enumPaths cfg fs (filterCtx (assembleCtx ictx cctx kw)) cache0 =
        .ok (cache, ps1 ++ p :: ps2) →
      (∀ q ∈ ps1, skipsAt cache q k = true) →
      cacheGet cache p = some (.dict es) →
      lookup (.dict es) k = .ok v → v ≠ .null →
      get_key fuel (some k) (ps1 ++ p :: ps2) cache
          (filterCtx (assembleCtx ictx cctx kw)) none =
        resolveTop fuel (ps1 ++ p :: ps2) cache
          (filterCtx (assembleCtx ictx cctx kw)) none v ∧
      (∀ r : Value,
        resolveTop fuel (ps1 ++ p :: ps2) cache
            (filterCtx (assembleCtx ictx cctx kw)) none v = .ok r →
        hieraGet fuel cfg fs cache0 ictx (some k) dflt none false thr cctx kw = .ok r)) := by
  constructor
  · intro cfg fs ctx cache0
    exact enumBackends_as_pairs cfg fs ctx cfg.backends (cache0, [])
  · intro fuel cfg fs cache0 ictx cctx kw k dflt thr cache ps1 ps2 p es v
      henum hskip hc hl hv
    have hkey : get_key fuel (some k) (ps1 ++ p :: ps2) cache
        (filterCtx (assembleCtx ictx cctx kw)) none =
        resolveTop fuel (ps1 ++ p :: ps2) cache
          (filterCtx (assembleCtx ictx cctx kw)) none v := by
      rw [get_key_as_loop,
        get_key_loop_skip_prefix _ _ k _ none none ps1 (p :: ps2) hskip,
        get_key_loop_hit _ _ k _ p ps2 es v hc hl hv]
      rfl
    refine ⟨hkey, ?_⟩
    intro r hr
    simp only [hieraGet, henum, Option.map_none']
    rw [hkey, hr]

/-- Witness for C1 at concrete inputs: the first candidate's `None`
value for `k` is skipped and the second candidate's value 5 is
returned. -/
theorem claim_C1_witness :
    hieraGet 1 fxCfg fxFs [] [] (some "k") (.str "dflt") none false false [] [] =
      .ok (.int 5) :=
  (claim_C1_theorem.2 1 fxCfg fxFs [] [] [] [] "k" (.str "dflt") false fxCache
    ["base/data/a.yaml"] [] "base/data/b.yaml"
    [("k", .int 5), ("m", .str "second"), ("al", .str (mkFuncStr "alias" "k"))]
    (.int 5) rfl (by decide) rfl rfl (by simp)).2 (.int 5) rfl

/-- Keys of an association list are pairwise distinct (the invariant a
Python dict guarantees). -/
def keysNodup (d : PyDict) : Prop :=
  (d.map Prod.fst).Nodup

theorem upsert_keysNodup (d : PyDict) (k : String) (v : Value) (h : keysNodup d) :
    keysNodup (upsert d k v) := by
  induction d with
  | nil => simp [upsert, keysNodup]
  | cons kv rest ih =>
    obtain ⟨k1, v1⟩ := kv
    simp only [keysNodup, List.map, List.nodup_cons] at h
    by_cases hk : k1 = k
    · subst hk
      simpa [upsert, keysNodup, List.nodup_cons] using h
    · have hrest := ih h.2
      simp only [upsert, if_neg hk, keysNodup, List.map, List.nodup_cons]
      refine ⟨?_, hrest⟩
      intro hmem
      have : ∀ (d2 : PyDict), k1 ∉ d2.map Prod.fst → k1 ≠ k →
          k1 ∉ (upsert d2 k v).map Prod.fst := by
        intro d2 hd2 hne
        induction d2 with
        | nil => simpa [upsert] using hne
        | cons kv2 r2 ih2 =>
          obtain ⟨k2, v2⟩ := kv2
          simp only [List.map, List.mem_cons] at hd2
          push_neg at hd2
          by_cases h2 : k2 = k
          · subst h2
            simp only [upsert, if_pos rfl, List.map, List.mem_cons]
            rintro (h3 | h3)
            · exact hne h3
            · exact hd2.2 h3
          · simp only [upsert, if_neg h2, List.map, List.mem_cons]
            rintro (h3 | h3)
            · exact hd2.1 h3
            · exact ih2 hd2.2 h3
      exact this rest h.1 hk hmem

theorem pyUpdate_keysNodup (src d : PyDict) (h : keysNodup d) :
    keysNodup (pyUpdate d src) := by
  induction src generalizing d with
  | nil => simpa [pyUpdate] using h
  | cons kv rest ih =>
    obtain ⟨k1, v1⟩ := kv
    exact ih (upsert d k1 v1) (upsert_keysNodup d k1 v1 h)

theorem assembleCtx_keysNodup (ictx cctx kw : PyDict) :
    keysNodup (assembleCtx ictx cctx kw) :=
  pyUpdate_keysNodup kw _ (pyUpdate_keysNodup cctx _ (pyUpdate_keysNodup ictx [] (by simp [keysNodup])))

theorem pyGet_filter_of_none (p : String × Value → Bool) (d : PyDict) (k : String)
    (h : pyGet d k = none) : pyGet (d.filter p) k = none := by
  induction d with
  | nil => simp [pyGet]
  | cons kv rest ih =>
    obtain ⟨k1, v1⟩ := kv
    simp only [pyGet] at h
    by_cases hk : k1 = k
    · rw [if_pos hk] at h; exact Option.noConfusion h
    · rw [if_neg hk] at h
      by_cases hp : p (k1, v1)
      · simp [List.filter, hp, pyGet, hk, ih h]
      · simp only [List.filter]
        rw [show (p (k1, v1) : Bool) = false from by simpa using hp]
        exact ih h

theorem pyGet_filterCtx_falsy (d : PyDict) (k : String) (v : Value)
    (hnd : keysNodup d) (h : pyGet d k = some v) (hf : truthy v = false) :
    pyGet (filterCtx d) k = none := by
  induction d with
  | nil => simp [pyGet] at h
  | cons kv rest ih =>
    obtain ⟨k1, v1⟩ := kv
    simp only [keysNodup, List.map, List.nodup_cons] at hnd
    simp only [pyGet] at h
    by_cases hk : k1 = k
    · rw [if_pos hk] at h
      injection h with h2
      subst h2
      subst hk
      have habs : pyGet rest k1 = none := by
        cases hg : pyGet rest k1 with
        | none => rfl
        | some w =>
          exfalso
          apply hnd.1
          clear ih hnd
          induction rest with
          | nil => simp [pyGet] at hg
          | cons kv2 r2 ih2 =>
            obtain ⟨k2, v2⟩ := kv2
            simp only [pyGet] at hg
            by_cases h2 : k2 = k1
            · subst h2; simp
            · rw [if_neg h2] at hg
              simp [ih2 hg]
      simp only [filterCtx, List.filter, hf]
      exact pyGet_filter_of_none _ rest k1 habs
    · rw [if_neg hk] at h
      have := ih hnd.2 h
      simp only [filterCtx] at this ⊢
      by_cases hp : truthy v1
      · simp [List.filter, hp, pyGet, hk, this]
      · simp only [List.filter]
        rw [show (truthy v1 : Bool) = false from by simpa using hp]
        exact this

theorem render_none_of_missing (t : Tmpl) (ctx : PyDict) (x : String)
    (hx : x ∈ tmplVars t) (hm : pyGet ctx x = none) : render t ctx = none := by
  induction t with
  | nil => simp [tmplVars] at hx
  | cons seg rest ih =>
    cases seg with
    | lit s =>
      simp only [tmplVars] at hx
      simp [render, ih hx]
    | var v =>
      simp only [tmplVars, List.mem_cons] at hx
      rcases hx with hx | hx
      · subst hx
        simp [render, hm]
      · cases hg : pyGet ctx v with
        | none => simp [render, hg]
        | some w => simp [render, hg, ih hx]

/-- C6: context entries with falsy values are removed from the assembled
context before template rendering, and a (backend, hierarchy level)
candidate whose datadir or level template references a variable missing
from the filtered context is skipped — it contributes no paths and no
error, with the cache untouched. -/
theorem claim_C6_theorem :
    (∀ (ictx cctx kw : PyDict) (k : String) (v : Value),
      pyGet (assembleCtx ictx cctx kw) k = some v → truthy v = false →
      pyGet (filterCtx (assembleCtx ictx cctx kw)) k = none) ∧
    (∀ (cfg : HieraConfig) (fs : Filesystem) (b : Backend) (t : Tmpl)
        (ctx : PyDict) (st : Cache × List String) (x : String),
      (x ∈ tmplVars b.datadir ∨ x ∈ tmplVars t) → pyGet ctx x = none →
      pairStep cfg fs b t ctx st = .ok st) := by
  constructor
  · intro ictx cctx kw k v h hf
    exact pyGet_filterCtx_falsy _ k v (assembleCtx_keysNodup ictx cctx kw) h hf
  · intro cfg fs b t ctx st x hx hm
    rcases hx with hx | hx
    · simp [pairStep, render_none_of_missing b.datadir ctx x hx hm]
    · rw [show pairStep cfg fs b t ctx st =
          (match render b.datadir ctx, render t ctx with
           | some dd, some pp =>
             let path := pjoin (pjoin cfg.basePath dd) pp
             if fs.isDir path then loadDirFold b (fs.walk path) st
             else if fs.pathExists (path ++ "." ++ b.name) then
               match load_file st.1 b.loadDoc false (path ++ "." ++ b.name) with
               | (.ok p, cache2) => .ok (cache2, st.2 ++ [p])
               | (.error e, _) => .error e
             else .ok st
           | _, _ => .ok st) from rfl,
        render_none_of_missing t ctx x hx hm]
      cases render b.datadir ctx <;> rfl

/-- Witness for C6 at concrete inputs: a falsy context entry is filtered
out, and a hierarchy level whose template needs the missing variable is
skipped without error. -/
theorem claim_C6_witness :
    pyGet (filterCtx (assembleCtx [("env", .str "x")] [] [("env", .str "")])) "env" = none ∧
    pairStep fxCfg fxFs fxBackend [.var "env"] [] ([], []) = .ok ([], []) :=
  ⟨claim_C6_theorem.1 [("env", .str "x")] [] [("env", .str "")] "env" (.str "") rfl rfl,
   claim_C6_theorem.2 fxCfg fxFs fxBackend [.var "env"] [] ([], []) "env"
     (Or.inr (by simp [tmplVars])) rfl⟩

/-- C4 counterexample: an alias combined with another character raises
the PLAIN exception ("Alias can not be used for string interpolation"),
whose kind is not the distinct interpolation-failure signal
`InterpolationError` the claim announces. -/
theorem claim_C4_counterexample :
    errKind (resolveTop 1 ["base/data/b.yaml"] fxCache [] none
      (.str (mkFuncStr "alias" "k" ++ "x"))) = some .other ∧
    ErrKind.other ≠ ErrKind.interpolation :=
  ⟨rfl, by decide⟩

/-- C4 (amended): a string consisting of exactly one alias call and
nothing else resolves to the aliased key's fully resolved value with its
type preserved (a still-string alias value additionally passes through
`resolve_interpolates`; a failed alias key lookup becomes
`InterpolationError`); an alias call combined with any other character
raises a PLAIN exception (not `InterpolationError`). -/
theorem claim_C4_theorem :
    (∀ (fuel : Nat) (paths : List String) (cache : Cache) (ctx : PyDict)
        (merge : Option MParam) (s k : String),
      funcFindall s.data = [("alias", k)] →
      funcSubAll [] s.data = [] →
      resolveTop (fuel + 1) paths cache ctx merge (.str s) =
        match (match get_key fuel (some k) paths cache ctx merge with
               | .error (.keyError _) =>
                 .error (.interpolationError
                   ("Alias lookup failed: key " ++ sqS ++ k ++ sqS ++ " does not exist"))
               | r => r : Except Err Value) with
        | .ok (.str t) =>
          match resolve_interpolates t ctx with
          | .ok u => .ok (.str u)
          | .error e => .error e
        | r => r) ∧
    (∀ (fuel : Nat) (paths : List String) (cache : Cache) (ctx : PyDict)
        (merge : Option MParam) (s k : String) (xs : List Value),
      funcFindall s.data = [("alias", k)] →
      funcSubAll [] s.data = [] →
      get_key fuel (some k) paths cache ctx merge = .ok (.list xs) →
      resolveTop (fuel + 1) paths cache ctx merge (.str s) = .ok (.list xs)) ∧
    (∀ (fuel : Nat) (paths : List String) (cache : Cache) (ctx : PyDict)
        (merge : Option MParam) (s k : String),
      funcFindall s.data = [("alias", k)] →
      funcSubAll [] s.data ≠ [] →
      resolveTop fuel paths cache ctx merge (.str s) =
        .error (.otherError ("Alias can not be used for string interpolation: `" ++ s ++ "`"))) := by
  have hmain : ∀ (fuel : Nat) (paths : List String) (cache : Cache) (ctx : PyDict)
      (merge : Option MParam) (s k : String),
      funcFindall s.data = [("alias", k)] →
      funcSubAll [] s.data = [] →
      resolveTop (fuel + 1) paths cache ctx merge (.str s) =
        match (match get_key fuel (some k) paths cache ctx merge with
               | .error (.keyError _) =>
                 .error (.interpolationError
                   ("Alias lookup failed: key " ++ sqS ++ k ++ sqS ++ " does not exist"))
               | r => r : Except Err Value) with
        | .ok (.str t) =>
          match resolve_interpolates t ctx with
          | .ok u => .ok (.str u)
          | .error e => .error e
        | r => r := by
    intro fuel paths cache ctx merge s k h1 h2
    have hcan : can_resolve s = true := by
      simp [can_resolve, h1]
    simp only [resolveTop, resolve, hcan, if_pos, resolve_function, h1, h2,
      List.isEmpty_nil, if_true, reEntry]
  refine ⟨hmain, ?_, ?_⟩
  · intro fuel paths cache ctx merge s k xs h1 h2 hk
    rw [hmain fuel paths cache ctx merge s k h1 h2, hk]
  · intro fuel paths cache ctx merge s k h1 h2
    have hcan : can_resolve s = true := by
      simp [can_resolve, h1]
    have h2b : (funcSubAll [] s.data).isEmpty = false := by
      cases h : funcSubAll [] s.data with
      | nil => exact absurd h h2
      | cons a l => rfl
    simp only [resolveTop, resolve, hcan, if_pos, resolve_function, h1, h2b,
      Bool.false_eq_true, if_false]

/-- Witness for C4: a pure alias of an int-valued key yields the int; a
pure alias of a list-valued key yields the list (type preserved). -/
theorem claim_C4_witness :
    resolveTop 1 ["base/data/b.yaml"] fxCache [] none (.str (mkFuncStr "alias" "k")) =
      .ok (.int 5) ∧
    resolveTop 1 ["q"] [("q", .dict [("lst", .list [.int 1, .int 2])])] [] none
      (.str (mkFuncStr "alias" "lst")) = .ok (.list [.int 1, .int 2]) :=
  ⟨(claim_C4_theorem.1 0 ["base/data/b.yaml"] fxCache [] none
      (mkFuncStr "alias" "k") "k" rfl rfl).trans rfl,
   claim_C4_theorem.2.1 0 ["q"] [("q", .dict [("lst", .list [.int 1, .int 2])])] [] none
     (mkFuncStr "alias" "lst") "lst" [.int 1, .int 2] rfl rfl rfl⟩

theorem stripCC_length_le (cs : List Char) : (stripCC cs).length ≤ cs.length := by
  cases cs with
  | nil => simp [stripCC]
  | cons c1 t =>
    cases t with
    | nil => simp [stripCC]
    | cons c2 rest =>
      by_cases h : c1 = ':' ∧ c2 = ':'
      · simp only [stripCC, if_pos h, List.length_cons]
        omega
      · simp [stripCC, h]

theorem matchInterpAt_rest_lt {cs nm rest : List Char}
    (h : matchInterpAt cs = some (nm, rest)) : rest.length < cs.length := by
  cases cs with
  | nil => simp [matchInterpAt] at h
  | cons c1 t =>
    cases t with
    | nil => simp [matchInterpAt] at h
    | cons c2 rest0 =>
      simp only [matchInterpAt] at h
      by_cases hb : c1 = '%' ∧ c2 = lbC
      · rw [if_pos hb] at h
        cases hd : (stripCC rest0).drop
            ((stripCC rest0).takeWhile (fun c => c ≠ rbC)).length with
        | nil => rw [hd] at h; exact absurd h (by simp)
        | cons c3 r2 =>
          rw [hd] at h
          have h5 : (if c3 = rbC then
              some ((stripCC rest0).takeWhile (fun c => c ≠ rbC), r2)
              else none) = some (nm, rest) := h
          clear h
          by_cases hc3 : c3 = rbC
          · rw [if_pos hc3] at h5
            have hr : r2 = rest := congrArg Prod.snd (Option.some.inj h5)
            have l1 : (stripCC rest0).length ≤ rest0.length := stripCC_length_le rest0
            have l2 : ((stripCC rest0).drop
                ((stripCC rest0).takeWhile (fun c => c ≠ rbC)).length).length ≤
                (stripCC rest0).length := by
              rw [List.length_drop]
              omega
            rw [hd] at l2
            rw [hr] at l2
            simp only [List.length_cons] at l2 ⊢
            omega
          · rw [if_neg hc3] at h5; exact absurd h5 (by simp)
      · rw [if_neg hb] at h; exact absurd h (by simp)

theorem interpFindallF_irrel : ∀ (f1 f2 : Nat) (cs : List Char),
    cs.length < f1 → cs.length < f2 → interpFindallF f1 cs = interpFindallF f2 cs
  | 0, _, _, h1, _ => absurd h1 (by omega)
  | _ + 1, 0, _, _, h2 => absurd h2 (by omega)
  | f1 + 1, f2 + 1, cs, h1, h2 => by
    simp only [interpFindallF]
    cases hm : matchInterpAt cs with
    | some pr =>
      obtain ⟨nm, rest⟩ := pr
      have hlt := matchInterpAt_rest_lt hm
      show nm :: interpFindallF f1 rest = nm :: interpFindallF f2 rest
      rw [interpFindallF_irrel f1 f2 rest (by omega) (by omega)]
    | none =>
      cases cs with
      | nil => rfl
      | cons c t =>
        simp only [List.length_cons] at h1 h2
        show interpFindallF f1 t = interpFindallF f2 t
        rw [interpFindallF_irrel f1 f2 t (by omega) (by omega)]

theorem matchInterpAt_none_head {c : Char} (cs : List Char) (h : c ≠ '%') :
    matchInterpAt (c :: cs) = none := by
  cases cs with
  | nil => rfl
  | cons c2 rest =>
    have : ¬ (c = '%' ∧ c2 = lbC) := fun hh => h hh.1
    simp [matchInterpAt, this]

theorem interpFindall_cons_skip {c : Char} (cs : List Char) (h : c ≠ '%') :
    interpFindall (c :: cs) = interpFindall cs := by
  simp only [interpFindall, List.length_cons, interpFindallF,
    matchInterpAt_none_head cs h]

theorem interpFindall_append_skip (pre cs : List Char) (h : '%' ∉ pre) :
    interpFindall (pre ++ cs) = interpFindall cs := by
  induction pre with
  | nil => rfl
  | cons c t ih =>
    have hc : c ≠ '%' := fun hh => h (hh ▸ List.mem_cons_self c t)
    rw [List.cons_append, interpFindall_cons_skip _ hc,
      ih (fun hh => h (List.mem_cons_of_mem c hh))]

theorem interpFindall_nil_of_no_pct (cs : List Char) (h : '%' ∉ cs) :
    interpFindall cs = [] := by
  induction cs with
  | nil => rfl
  | cons c t ih =>
    have hc : c ≠ '%' := fun hh => h (hh ▸ List.mem_cons_self c t)
    rw [interpFindall_cons_skip _ hc, ih (fun hh => h (List.mem_cons_of_mem c hh))]

theorem takeWhile_append_stop (p : Char → Bool) (y : Char) (ys : List Char) :
    ∀ (xs : List Char), (∀ c ∈ xs, p c = true) → p y = false →
      (xs ++ y :: ys).takeWhile p = xs
  | [], _, hy => by simp [List.takeWhile_cons, hy]
  | x :: xs, h, hy => by
    have hx := h x (List.mem_cons_self x xs)
    simp [List.takeWhile_cons, hx,
      takeWhile_append_stop p y ys xs (fun c hc => h c (List.mem_cons_of_mem x hc)) hy]

theorem stripCC_eq_self (cs : List Char) (h : cs.head? ≠ some ':') : stripCC cs = cs := by
  cases cs with
  | nil => rfl
  | cons c1 t =>
    cases t with
    | nil => rfl
    | cons c2 rest =>
      have hne : ¬ (c1 = ':' ∧ c2 = ':') := by
        rintro ⟨h1, _⟩
        exact h (by simp [h1])
      simp [stripCC, hne]

theorem matchInterpAt_marker (name post : List Char) (hr : rbC ∉ name) (hc : ':' ∉ name) :
    matchInterpAt ('%' :: lbC :: (name ++ rbC :: post)) = some (name, post) := by
  have hhead : (name ++ rbC :: post).head? ≠ some ':' := by
    cases name with
    | nil =>
      simp only [List.nil_append, List.head?_cons]
      intro hh
      have : rbC = ':' := Option.some.inj hh
      exact absurd this (by decide)
    | cons c t =>
      simp only [List.cons_append, List.head?_cons]
      intro hh
      exact hc ((Option.some.inj hh) ▸ List.mem_cons_self c t)
  have htake : (name ++ rbC :: post).takeWhile (fun ch => ch ≠ rbC) = name := by
    refine takeWhile_append_stop _ rbC post name ?_ (by simp)
    intro ch hch
    simp only [ne_eq, decide_eq_true_eq]
    intro hh
    exact hr (hh ▸ hch)
  have hdrop : (name ++ rbC :: post).drop name.length = rbC :: post := by
    simp
  simp only [matchInterpAt, stripCC_eq_self _ hhead, htake, hdrop]
  simp

theorem interpFindallF_succ (f : Nat) (cs : List Char) :
    interpFindallF (f + 1) cs =
      match matchInterpAt cs with
      | some (nm, rest) => nm :: interpFindallF f rest
      | none =>
        match cs with
        | [] => []
        | _ :: t => interpFindallF f t := rfl

theorem interpFindall_marker (name post : List Char) (hr : rbC ∉ name) (hc : ':' ∉ name) :
    interpFindall ('%' :: lbC :: (name ++ rbC :: post)) = name :: interpFindall post := by
  rw [interpFindall, interpFindallF_succ, matchInterpAt_marker name post hr hc]
  show name :: interpFindallF (('%' :: lbC :: (name ++ rbC :: post)).length) post =
    name :: interpFindall post
  rw [interpFindallF_irrel (('%' :: lbC :: (name ++ rbC :: post)).length)
    (post.length + 1) post (by simp; omega) (by omega)]
  rfl

theorem interpSub1_cons_skip (repl : List Char) {c : Char} (cs : List Char) (h : c ≠ '%') :
    interpSub1 repl (c :: cs) = c :: interpSub1 repl cs := by
  rw [interpSub1, matchInterpAt_none_head cs h]

theorem interpSub1_append_skip (repl pre cs : List Char) (h : '%' ∉ pre) :
    interpSub1 repl (pre ++ cs) = pre ++ interpSub1 repl cs := by
  induction pre with
  | nil => rfl
  | cons c t ih =>
    have hc : c ≠ '%' := fun hh => h (hh ▸ List.mem_cons_self c t)
    rw [List.cons_append, interpSub1_cons_skip repl _ hc,
      ih (fun hh => h (List.mem_cons_of_mem c hh)), List.cons_append]

theorem interpSub1_marker (repl name post : List Char) (hr : rbC ∉ name) (hc : ':' ∉ name) :
    interpSub1 repl ('%' :: lbC :: (name ++ rbC :: post)) = repl ++ post := by
  rw [interpSub1, matchInterpAt_marker name post hr hc]

/-- C9 counterexample: a bare interpolation of a PRESENT, truthy,
non-string context variable is not substituted "as a string" — `re.sub`
raises TypeError on the non-string replacement, so the value is never
stringified. -/
theorem claim_C9_counterexample :
    resolve_interpolates (mkInterpStr "n") [("n", .int 5)] =
      .error (.typeError "expected string or bytes-like object") ∧
    errKind (resolve_interpolates (mkInterpStr "n") [("n", .int 5)]) = some .type :=
  ⟨rfl, rfl⟩

/-- C9 (amended): after function-call substitution, a bare
`%\x7bvar\x7d` occurrence is replaced with the context variable's value
when that value is a backslash-free string (a backslash in the value
would instead undergo `re.sub`'s replacement-template escape
processing, which can rewrite it or raise `re.error`), and with the
empty string when the variable is absent or its value falsy — never an
error in those cases; but a truthy NON-string value raises TypeError
instead of being stringified. -/
theorem claim_C9_theorem :
    ∀ (pre post name : List Char) (ctx : PyDict),
      '%' ∉ pre → '%' ∉ post → rbC ∉ name → ':' ∉ name →
      ((∀ t : String, pyGet ctx (String.mk name) = some (.str t) → bsC ∉ t.data →
        resolve_interpolates (String.mk (pre ++ '%' :: lbC :: (name ++ rbC :: post))) ctx =
          .ok (String.mk (pre ++ (t.data ++ post)))) ∧
       (pyGet ctx (String.mk name) = none →
        resolve_interpolates (String.mk (pre ++ '%' :: lbC :: (name ++ rbC :: post))) ctx =
          .ok (String.mk (pre ++ post))) ∧
       (∀ v : Value, pyGet ctx (String.mk name) = some v → truthy v = false →
        resolve_interpolates (String.mk (pre ++ '%' :: lbC :: (name ++ rbC :: post))) ctx =
          .ok (String.mk (pre ++ post))) ∧
       (∀ v : Value, pyGet ctx (String.mk name) = some v → truthy v = true →
        (∀ t : String, v ≠ .str t) →
        errKind (resolve_interpolates
          (String.mk (pre ++ '%' :: lbC :: (name ++ rbC :: post))) ctx) = some .type)) := by
  intro pre post name ctx hpre hpost hrb hcl
  have hfind : interpFindall (pre ++ '%' :: lbC :: (name ++ rbC :: post)) = [name] := by
    rw [interpFindall_append_skip pre _ hpre, interpFindall_marker name post hrb hcl,
      interpFindall_nil_of_no_pct post hpost]
  have hsub : ∀ repl : List Char,
      interpSub1 repl (pre ++ '%' :: lbC :: (name ++ rbC :: post)) = pre ++ (repl ++ post) := by
    intro repl
    rw [interpSub1_append_skip repl pre _ hpre, interpSub1_marker repl name post hrb hcl]
  have hdata : (String.mk (pre ++ '%' :: lbC :: (name ++ rbC :: post))).data =
      pre ++ '%' :: lbC :: (name ++ rbC :: post) := rfl
  refine ⟨?_, ?_, ?_, ?_⟩
  · intro t ht _hbs
    simp only [resolve_interpolates, hdata, hfind, interpLoop, ht]
    by_cases h0 : t = ""
    · subst h0
      simp only [truthy, bne_self_eq_false, Bool.false_eq_true, if_false, hsub,
        interpLoop]
    · have htr : truthy (.str t) = true := by simp [truthy, h0]
      simp only [htr, if_true, hsub, interpLoop]
  · intro ht
    simp only [resolve_interpolates, hdata, hfind, interpLoop, ht, hsub]
    rfl
  · intro v hv htr
    simp only [resolve_interpolates, hdata, hfind, interpLoop, hv, htr,
      Bool.false_eq_true, if_false, hsub, interpLoop]
    rfl
  · intro v hv htr hns
    simp only [resolve_interpolates, hdata, hfind, interpLoop, hv, htr, if_true]
    cases v with
    | str t => exact absurd rfl (hns t)
    | null => simp [truthy] at htr
    | bool b => rfl
    | int n => rfl
    | list xs => rfl
    | dict es => rfl
    | pyset xs => rfl

/-- Fixture prefix for the C9 witness. -/
def preW : List Char := "a ".data
/-- Fixture suffix for the C9 witness. -/
def postW : List Char := " b".data
/-- Fixture variable name for the C9 witness. -/
def nameW : List Char := "n".data

/-- Witness for C9 at concrete inputs: present string value substituted,
absent variable substituted by the empty string without error, truthy
non-string value raising TypeError. -/
theorem claim_C9_witness :
    resolve_interpolates (String.mk (preW ++ '%' :: lbC :: (nameW ++ rbC :: postW)))
        [("n", .str "X")] = .ok (String.mk (preW ++ ("X".data ++ postW))) ∧
    resolve_interpolates (String.mk (preW ++ '%' :: lbC :: (nameW ++ rbC :: postW)))
        [] = .ok (String.mk (preW ++ postW)) ∧
    errKind (resolve_interpolates
        (String.mk (preW ++ '%' :: lbC :: (nameW ++ rbC :: postW)))
        [("n", .int 5)]) = some .type :=
  ⟨(claim_C9_theorem preW postW nameW [("n", .str "X")]
      (by decide) (by decide) (by decide) (by decide)).1 "X" rfl (by decide),
   (claim_C9_theorem preW postW nameW []
      (by decide) (by decide) (by decide) (by decide)).2.1 rfl,
   (claim_C9_theorem preW postW nameW [("n", .int 5)]
      (by decide) (by decide) (by decide) (by decide)).2.2.2 (.int 5) rfl rfl
      (fun _ h => Value.noConfusion h)⟩
